import Mathlib

/-!
Verification development for the hemsire nurse-duty scheduling engine
(src/services/scheduler.ts).  The engine is embedded shallowly: the
`Scheduler` class becomes a structure, its mutable per-attempt state
(`dayAssignmentsMap`, `staffStats`, `unfilledSlots`) becomes an explicit
`SimState` threaded through the per-day phase functions, and the internal
randomness (day-order shuffling, service shuffling for the senior phase,
per-candidate score jitter) is parametrised by an `Oracle`.  JavaScript
`Date` arithmetic (`getDate` of day 0 of the next month, `getDay`) is
embedded by a Sakamoto-style day-of-week computation over the proleptic
Gregorian calendar, matching the normalisation JS applies to out-of-range
day numbers.  Machine numbers that are always integral in the source are
embedded as `Nat`/`Int`.  Candidate scores are sums of integer bonuses
plus a random jitter `Math.random() * 500`; the jitter is embedded as an
oracle-supplied integer perturbation: since every other score component is
an integer, the set of realizable candidate orderings is unchanged.
-/

set_option maxHeartbeats 1000000
set_option maxRecDepth 10000

namespace Hemsire

/-! Calendar helpers mirroring the JavaScript `Date` calls of the source. -/

/-- Month lengths of a non-leap year. -/
def monthTable : List Nat := [31, 28, 31, 30, 31, 30, 31, 31, 30, 31, 30, 31]

/-- Gregorian leap-year test. -/
def isLeapYear (y : Nat) : Bool := (y % 4 == 0 && y % 100 != 0) || y % 400 == 0

/-- Number of days of month `month` (0-based, as in JS `Date`) of `year`;
this is `new Date(year, month + 1, 0).getDate()`.  Months `≥ 12` roll over
into later years exactly as JS normalises them. -/
def daysInMonthOf (year month : Nat) : Nat :=
  let idx := 12 * year + month
  let y := idx / 12
  let m1 := idx % 12 + 1
  if m1 == 2 && isLeapYear y then 29 else monthTable.getD (m1 - 1) 31

/-- Sakamoto month offsets for the day-of-week computation. -/
def sakamotoTable : List Nat := [0, 3, 2, 5, 0, 3, 5, 1, 4, 6, 2, 4]

/-- Day of week (0 = Sunday .. 6 = Saturday) of the first day of month
`month` (0-based) of `year`. -/
def dowFirstOfMonth (year month : Nat) : Int :=
  let idx := 12 * year + month
  let y := idx / 12
  let m1 := idx % 12 + 1
  let yy : Int := if m1 < 3 then (y : Int) - 1 else (y : Int)
  (yy + yy / 4 - yy / 100 + yy / 400 + ((sakamotoTable.getD (m1 - 1) 0 : Nat) : Int) + 1) % 7

/-- Day of week of `new Date(year, month, day)` for an arbitrary integer
`day`: JS normalises day 0, negative days and days past the end of the
month by linear offset from the first of the month. -/
def jsDayOfWeek (year month : Nat) (day : Int) : Int :=
  (dowFirstOfMonth year month + (day - 1)) % 7

/-! Data model, mirroring src/types.ts. -/

/-- A staff member (types.ts `Staff`).  Day numbers are embedded as `Int`
so that the JS arithmetic `day - 1`, `day - 3` needs no truncation. -/
structure Staff where
  id : String
  name : String
  role : Nat
  unit : String
  specialty : Option String
  room : String
  quotaService : Nat
  weekendLimit : Nat
  offDays : List Int
  requestedDays : List Int
  isActive : Bool
deriving DecidableEq

/-- A unit-or-specialty day constraint (types.ts `UnitConstraint`). -/
structure UnitConstraint where
  unit : String
  allowedDays : List Int
deriving DecidableEq

/-- A duty slot type (types.ts `Service`). -/
structure Service where
  id : String
  name : String
  minDailyCount : Nat
  maxDailyCount : Nat
  allowedUnits : Option (List String)
  isEmergency : Bool
deriving DecidableEq

/-- One assignment record (types.ts `ShiftAssignment`). -/
structure ShiftAssignment where
  serviceId : String
  staffId : String
  staffName : String
  role : Nat
  unit : String
  isEmergency : Bool
deriving DecidableEq

/-- One day of the produced schedule (types.ts `DaySchedule`). -/
structure DaySchedule where
  day : Int
  assignments : List ShiftAssignment
  isWeekend : Bool
deriving DecidableEq

instance : Inhabited DaySchedule := ⟨⟨0, [], false⟩⟩

/-- A per-staff statistics row of the result (types.ts `Stats`). -/
structure Stats where
  staffId : String
  totalShifts : Nat
  serviceShifts : Nat
  emergencyShifts : Nat
  weekendShifts : Nat
  saturdayShifts : Nat
  sundayShifts : Nat
deriving DecidableEq

instance : Inhabited Stats := ⟨⟨"", 0, 0, 0, 0, 0, 0⟩⟩

/-- The full result of a generation (types.ts `ScheduleResult`). -/
structure ScheduleResult where
  schedule : List DaySchedule
  unfilledSlots : Nat
  logs : List String
  stats : List Stats
deriving DecidableEq

/-- Engine configuration (types.ts `SchedulerConfig`). -/
structure SchedulerConfig where
  year : Nat
  month : Nat
  maxRetries : Nat
  randomizeOrder : Bool
  preventEveryOtherDay : Bool
  unitConstraints : List UnitConstraint
  dailyTotalTarget : Nat
deriving DecidableEq

/-- Options of `findBestCandidate` (scheduler.ts `CandidateOptions`);
absent optional fields are `none` / `false`. -/
structure CandidateOptions where
  desperate : Bool := false
  restrictRole : Option Nat := none
  excludeRole : Option Nat := none
  restrictSpecialty : Option String := none
deriving DecidableEq

/-- The running counters kept per staff member during one simulation
attempt (the record values of scheduler.ts `staffStats`). -/
structure StatRec where
  total : Nat
  service : Nat
  emergency : Nat
  weekend : Nat
  saturday : Nat
  sunday : Nat
deriving DecidableEq

/-- All-zero counters, the per-attempt initial value. -/
def StatRec.zero : StatRec := ⟨0, 0, 0, 0, 0, 0⟩

/-- The scheduler after construction: the active staff, the services and
the configuration (scheduler.ts `Scheduler` fields). -/
structure Scheduler where
  staff : List Staff
  services : List Service
  config : SchedulerConfig

/-- The constructor: it keeps only active staff (`isActive !== false`).
It performs no validation and cannot fail. -/
def mkScheduler (staff : List Staff) (services : List Service)
    (config : SchedulerConfig) : Scheduler :=
  ⟨staff.filter (fun s => s.isActive), services, config⟩

/-- Scheduler field `daysInMonth`. -/
def Scheduler.daysInMonth (sch : Scheduler) : Nat :=
  daysInMonthOf sch.config.year sch.config.month

/-- Method `getDayOfWeek`. -/
def Scheduler.dow (sch : Scheduler) (day : Int) : Int :=
  jsDayOfWeek sch.config.year sch.config.month day

/-- Method `isWeekend`: the day of week is Sunday or Saturday. -/
def Scheduler.isWeekendDay (sch : Scheduler) (day : Int) : Bool :=
  sch.dow day == 0 || sch.dow day == 6

/-- Roommates of staff member `s`: the ids of the other staff sharing a
non-blank room string (scheduler.ts `analyzeRoommates` groups). -/
def roommatesList (staff : List Staff) (s : Staff) : List String :=
  if s.room.data.all Char.isWhitespace then []
  else ((staff.filter (fun t => t.room == s.room)).map (fun t => t.id)).filter
    (fun i => i != s.id)

/-- Lookup in the `roommatesMap` cache built by `analyzeRoommates`: the
map is filled by a forEach over the staff, so for a duplicated id the last
staff member with that id wins. -/
def Scheduler.roommatesOf (sch : Scheduler) (staffId : String) : List String :=
  match sch.staff.reverse.find? (fun s => s.id == staffId) with
  | some s => roommatesList sch.staff s
  | none => []

/-- Method `getDayDifficulty`. -/
def Scheduler.getDayDifficulty (sch : Scheduler) (day : Int) : Nat :=
  let dw := sch.dow day
  let cs := sch.config.unitConstraints.filter (fun c => c.allowedDays.contains dw)
  if cs.any (fun c => c.unit == "Transplantasyon") then 100
  else if cs.any (fun c => c.unit == "Yara Bakım") then 90
  else if dw == 6 then 80
  else if dw == 0 then 60
  else 10

/-- Method `getServiceDifficulty`. -/
def Scheduler.getServiceDifficulty (sch : Scheduler) (service : Service) : Int :=
  match service.allowedUnits with
  | some us =>
    if us.isEmpty then 1000
    else 1000 - 10 * ((sch.staff.filter (fun s => us.contains s.unit)).length : Int)
  | none => 1000

/-- Method `getPotentialCandidatesCount`. -/
def Scheduler.getPotentialCandidatesCount (sch : Scheduler) (service : Service) : Nat :=
  (sch.staff.filter (fun s =>
    match service.allowedUnits with
    | some us => us.isEmpty || us.contains s.unit
    | none => true)).length

/-- Stable insertion used to embed JS `Array.prototype.sort` with a
numeric comparator (modern engines sort stably). -/
def insertSorted {α : Type} (le : α → α → Bool) (x : α) : List α → List α
  | [] => [x]
  | y :: ys => if le x y then x :: y :: ys else y :: insertSorted le x ys

/-- Stable sort by the boolean relation `le`. -/
def sortedBy {α : Type} (le : α → α → Bool) (l : List α) : List α :=
  l.foldr (insertSorted le) []

/-- Method `hasShiftOnDay`; a day key absent from the map yields no
assignments, embedded as the total function defaulting to `[]`. -/
def hasShiftOnDay (assignmentsMap : Int → List ShiftAssignment) (day : Int)
    (staffId : String) : Bool :=
  (assignmentsMap day).any (fun a => a.staffId == staffId)

/-- JS `Math.min(...xs)` over a list with a default for the empty list. -/
def listMinD (d : Nat) : List Nat → Nat
  | [] => d
  | x :: xs => xs.foldl Nat.min x

/-- The active junior (role 3) staff, recomputed by `findBestCandidate`. -/
def activeJuniors (sch : Scheduler) : List Staff :=
  sch.staff.filter (fun s => s.role == 3 && s.isActive)

/-- Minimum ordinary-shift count among active juniors, 999 if none. -/
def minJuniorShifts (sch : Scheduler) (stats : String → StatRec) : Nat :=
  listMinD 999 ((activeJuniors sch).map (fun j => (stats j.id).service))

/-- Minimum ordinary-shift count among active staff of role `r`
(`minShiftsByRole`), 0 if the role has no active staff. -/
def minShiftsByRole (sch : Scheduler) (stats : String → StatRec) (r : Nat) : Nat :=
  listMinD 0 ((sch.staff.filter (fun s => s.role == r && s.isActive)).map
    (fun p => (stats p.id).service))

/-- Vertical-fairness rejection: an experienced (role 2) member may not
take a shift once they have at least as many as the lowest junior. -/
def verticalBlocked (sch : Scheduler) (stats : String → StatRec) (person : Staff) : Bool :=
  person.role == 2 && !(activeJuniors sch).isEmpty &&
    decide (minJuniorShifts sch stats ≤ (stats person.id).service)

/-- Horizontal-fairness rejection: `stats.service > minShiftsByRole[role]`.
The JS record is only populated for roles 1, 2, 3; for any other role the
comparison against `undefined` is false, hence no block. -/
def horizontalBlocked (sch : Scheduler) (stats : String → StatRec) (person : Staff) : Bool :=
  if person.role == 1 || person.role == 2 || person.role == 3 then
    decide (minShiftsByRole sch stats person.role < (stats person.id).service)
  else false

/-- Display name of a specialty tag, used to look up its day constraint. -/
def specialtyConstraintName (sp : String) : String :=
  if sp == "transplant" then "Transplantasyon"
  else if sp == "wound" then "Yara Bakım"
  else ""

/-- Unit/constraint eligibility (block 3 of the candidate filter): role-3
staff are wildcards; everyone else must match the service's allow-list,
their unit's day constraint, and their specialty's day constraint. -/
def unitChecksOk (sch : Scheduler) (service : Service) (dw : Int) (person : Staff) : Bool :=
  person.role == 3 ||
  ((match service.allowedUnits with
    | some us => us.isEmpty || us.contains person.unit
    | none => true) &&
   (match sch.config.unitConstraints.find? (fun c => c.unit == person.unit) with
    | some c => c.allowedDays.contains dw
    | none => true) &&
   (match person.specialty with
    | some sp =>
      if sp == "" || sp == "none" then true
      else
        match sch.config.unitConstraints.find?
            (fun c => c.unit == specialtyConstraintName sp) with
        | some c => c.allowedDays.contains dw
        | none => true
    | none => true))

/-- The candidate filter of `findBestCandidate`, in the source's order:
option filters, availability, the strict 24h rule, unit matching,
roommate conflicts, quota ceilings, the Thursday/weekend adjacency rules,
and (unless desperate) the two fairness rules. -/
def candidateOk (sch : Scheduler) (service : Service) (day : Int)
    (assignedTodayIds : List String) (assignmentsMap : Int → List ShiftAssignment)
    (stats : String → StatRec) (isWeekend isSat isSun : Bool)
    (options : CandidateOptions) (person : Staff) : Bool :=
  (match options.restrictRole with | some r => person.role == r | none => true) &&
  (match options.excludeRole with | some r => person.role != r | none => true) &&
  (match options.restrictSpecialty with
   | some sp => sp == "" || person.specialty == some sp
   | none => true) &&
  !(assignedTodayIds.contains person.id) &&
  !(person.offDays.contains day) &&
  !(hasShiftOnDay assignmentsMap (day - 1) person.id) &&
  !(hasShiftOnDay assignmentsMap (day + 1) person.id) &&
  unitChecksOk sch service (sch.dow day) person &&
  ((sch.roommatesOf person.id).all (fun rid =>
      !(assignedTodayIds.contains rid) &&
      !(hasShiftOnDay assignmentsMap (day - 1) rid) &&
      !(hasShiftOnDay assignmentsMap (day + 1) rid))) &&
  decide ((stats person.id).service < person.quotaService) &&
  (!isWeekend || decide ((stats person.id).weekend < person.weekendLimit)) &&
  (!isSat || !(hasShiftOnDay assignmentsMap (day - 2) person.id)) &&
  (!isSun || !(hasShiftOnDay assignmentsMap (day - 3) person.id)) &&
  (!(sch.dow day == 4) ||
     (!(hasShiftOnDay assignmentsMap (day + 2) person.id) &&
      !(hasShiftOnDay assignmentsMap (day + 3) person.id))) &&
  (options.desperate ||
     (!(verticalBlocked sch stats person) && !(horizontalBlocked sch stats person)))

/-- The scoring function of `findBestCandidate`; the `Math.random() * 500`
jitter is supplied by `jit`. -/
def scoreOf (sch : Scheduler) (day : Int)
    (assignmentsMap : Int → List ShiftAssignment) (stats : String → StatRec)
    (isWeekend : Bool) (options : CandidateOptions) (jit : String → Int)
    (person : Staff) : Int :=
  let dw := sch.dow day
  let s1 : Int :=
    match options.restrictSpecialty with
    | some sp => if sp != "" && person.specialty == some sp then 500000 else 0
    | none => 0
  let s2 : Int :=
    match person.specialty with
    | some sp =>
      if sp != "" && sp != "none" then
        match sch.config.unitConstraints.find?
            (fun c => c.unit == specialtyConstraintName sp) with
        | some c => if c.allowedDays.contains dw then 100000 else 0
        | none => 0
      else 0
    | none => 0
  let s3 : Int := if person.requestedDays.contains day then 20000 else 0
  let s4 : Int := if person.role == 3 then 2000 else 0
  let s5 : Int := ((person.quotaService : Int) - ((stats person.id).service : Int)) * 2000
  let s6 : Int := if isWeekend then -(((stats person.id).weekend : Int) * 2000) else 0
  let s7 : Int :=
    if sch.config.preventEveryOtherDay && hasShiftOnDay assignmentsMap (day - 2) person.id
    then -1000 else 0
  s1 + s2 + s3 + s4 + s5 + s6 + s7 + jit person.id

/-- First element of maximal score, as `sort` by descending score followed
by taking index 0 behaves on a stably sorted array. -/
def pickBestAux (best : Staff) (bestScore : Int) : List (Staff × Int) → Staff
  | [] => best
  | (q, sc) :: rest =>
    if bestScore < sc then pickBestAux q sc rest else pickBestAux best bestScore rest

/-- Method `findBestCandidate`: filter, score, sort descending, take the
top candidate, or `null` when nobody is eligible. -/
def Scheduler.findBestCandidate (sch : Scheduler) (service : Service) (day : Int)
    (assignedTodayIds : List String) (assignmentsMap : Int → List ShiftAssignment)
    (stats : String → StatRec) (isWeekend isSat isSun isFri : Bool)
    (options : CandidateOptions) (jit : String → Int) : Option Staff :=
  let filtered := sch.staff.filter
    (candidateOk sch service day assignedTodayIds assignmentsMap stats
      isWeekend isSat isSun options)
  match filtered.map (fun p =>
      (p, scoreOf sch day assignmentsMap stats isWeekend options jit p)) with
  | [] => none
  | (p, sc) :: rest => some (pickBestAux p sc rest)

/-! Simulation state.  One attempt's mutable maps become explicit data:
the day-to-assignments map (total function, empty list elsewhere), the
per-staff statistics map, the unfilled-slot counter and a counter of
oracle jitter draws. -/

/-- Per-attempt state (`dayAssignmentsMap`, `staffStats`, `unfilledSlots`)
plus the index of the next random draw. -/
structure SimState where
  asg : Int → List ShiftAssignment
  stats : String → StatRec
  unfilled : Nat
  rng : Nat

/-- State while one day is being filled: the attempt state plus the
day-local `assignedTodayIds` set and the `seniorAssignedToday` flag. -/
structure DayState where
  sim : SimState
  assignedToday : List String
  seniorAssigned : Bool

/-- Consume one random draw (each `findBestCandidate` call jitters). -/
def bumpRng (st : DayState) : DayState :=
  { st with sim := { st.sim with rng := st.sim.rng + 1 } }

/-- Statistics update performed by `assignToSlot`. -/
def bumpStat (isWeekend isSat isSun : Bool) (s : StatRec) : StatRec :=
  { s with total := s.total + 1, service := s.service + 1,
           weekend := s.weekend + (if isWeekend then 1 else 0),
           saturday := s.saturday + (if isSat then 1 else 0),
           sunday := s.sunday + (if isSun then 1 else 0) }

/-- The assignment record pushed for a real candidate. -/
def mkAssignment (candidate : Staff) (service : Service) : ShiftAssignment :=
  ⟨service.id, candidate.id, candidate.name, candidate.role, candidate.unit,
    service.isEmergency⟩

/-- The EMPTY sentinel record pushed for an unfillable slot. -/
def emptyAssignment (service : Service) : ShiftAssignment :=
  ⟨service.id, "EMPTY", "BOŞ (Min:" ++ toString service.minDailyCount ++ ")", 0, "-",
    service.isEmergency⟩

/-- Helper `assignToSlot`: push the record on the day, mark the staff
assigned today, update their statistics, raise the senior flag for a
role-1 candidate. -/
def assignToSlot (day : Int) (isWeekend isSat isSun : Bool)
    (candidate : Staff) (service : Service) (st : DayState) : DayState :=
  { sim :=
      { asg := fun d =>
          if d = day then st.sim.asg day ++ [mkAssignment candidate service]
          else st.sim.asg d,
        stats := fun i =>
          if i = candidate.id then bumpStat isWeekend isSat isSun (st.sim.stats candidate.id)
          else st.sim.stats i,
        unfilled := st.sim.unfilled,
        rng := st.sim.rng },
    assignedToday := candidate.id :: st.assignedToday,
    seniorAssigned := st.seniorAssigned || candidate.role == 1 }

/-- Push an EMPTY sentinel for the service and count the unfilled slot. -/
def pushSentinel (day : Int) (service : Service) (st : DayState) : DayState :=
  { st with sim := { st.sim with
      asg := fun d =>
        if d = day then st.sim.asg day ++ [emptyAssignment service]
        else st.sim.asg d,
      unfilled := st.sim.unfilled + 1 } }

/-- Randomness source for one simulation attempt: the processed day order
(used when `randomizeOrder` is set), the per-day service shuffle of the
senior phase, and the per-call per-staff score jitter. -/
structure Oracle where
  dayOrder : List Int
  shuffle : Int → List Service → List Service
  jitter : Nat → String → Int

/-- Context of one day of the simulation loop: the scheduler, the jitter
pool, the day and its precomputed weekday flags. -/
structure DayCtx where
  sch : Scheduler
  jp : Nat → String → Int
  day : Int
  isWeekend : Bool
  isSat : Bool
  isSun : Bool
  isFri : Bool

/-- Build the day context as the day loop of `runSimulation` does. -/
def mkDayCtx (sch : Scheduler) (jp : Nat → String → Int) (day : Int) : DayCtx :=
  let dw := sch.dow day
  ⟨sch, jp, day, dw == 6 || dw == 0, dw == 6, dw == 0, dw == 5⟩

/-- One `findBestCandidate` call: returns its result and the state with
one random draw consumed. -/
def DayCtx.find (ctx : DayCtx) (service : Service) (options : CandidateOptions)
    (st : DayState) : Option Staff × DayState :=
  (ctx.sch.findBestCandidate service ctx.day st.assignedToday st.sim.asg st.sim.stats
      ctx.isWeekend ctx.isSat ctx.isSun ctx.isFri options (ctx.jp st.sim.rng),
   bumpRng st)

/-- `assignToSlot` with the context's day and flags. -/
def DayCtx.assign (ctx : DayCtx) (candidate : Staff) (service : Service)
    (st : DayState) : DayState :=
  assignToSlot ctx.day ctx.isWeekend ctx.isSat ctx.isSun candidate service st

/-! Phase 0: priority specialty assignment. -/

/-- Map a constraint name to the internal specialty tag it reserves. -/
def specialtyTarget (unitName : String) : Option String :=
  if unitName == "Transplantasyon" then some "transplant"
  else if unitName == "Yara Bakım" then some "wound"
  else none

/-- The services Phase 0 scans: positive minimum, hardest first. -/
def eligibleServicesP0 (sch : Scheduler) : List Service :=
  sortedBy (fun a b => decide (sch.getServiceDifficulty b ≤ sch.getServiceDifficulty a))
    (sch.services.filter (fun s => 0 < s.minDailyCount))

/-- Whether someone already assigned today carries the target specialty. -/
def alreadyAssignedSpecialty (sch : Scheduler) (day : Int) (st : DayState)
    (target : String) : Bool :=
  (st.sim.asg day).any (fun a =>
    match sch.staff.find? (fun s => s.id == a.staffId) with
    | some s => s.specialty == some target
    | none => false)

/-- Walk the eligible services and place the specialty-forced candidate
into the first one where the search succeeds. -/
def tryServicesPhase0 (ctx : DayCtx) (target : String) :
    List Service → DayState → DayState
  | [], st => st
  | sv :: rest, st =>
    match ctx.find sv { restrictSpecialty := some target } st with
    | (some cand, st1) => ctx.assign cand sv st1
    | (none, st1) => tryServicesPhase0 ctx target rest st1

/-- Phase 0 treatment of one unit constraint. -/
def phase0Constraint (ctx : DayCtx) (st : DayState) (c : UnitConstraint) : DayState :=
  if c.allowedDays.contains (ctx.sch.dow ctx.day) then
    match specialtyTarget c.unit with
    | some target =>
      if alreadyAssignedSpecialty ctx.sch ctx.day st target then st
      else tryServicesPhase0 ctx target (eligibleServicesP0 ctx.sch) st
    | none => st
  else st

/-- Phase 0 over all unit constraints. -/
def phase0 (ctx : DayCtx) (st : DayState) : DayState :=
  ctx.sch.config.unitConstraints.foldl (phase0Constraint ctx) st

/-! Phase 1: place one senior (role 1) into some service still below its
minimum, scanning a shuffled service list. -/

/-- Phase 1 loop body over the shuffled services. -/
def phase1Go (ctx : DayCtx) : List Service → DayState → DayState
  | [], st => st
  | sv :: rest, st =>
    if st.seniorAssigned then st
    else if sv.minDailyCount == 0 then phase1Go ctx rest st
    else if sv.minDailyCount ≤
        (st.sim.asg ctx.day).countP (fun a => a.serviceId == sv.id) then
      phase1Go ctx rest st
    else
      match ctx.find sv { restrictRole := some 1 } st with
      | (some cand, st1) => phase1Go ctx rest (ctx.assign cand sv st1)
      | (none, st1) => phase1Go ctx rest st1

/-- Phase 1, run only when Phase 0 placed no senior. -/
def phase1 (ctx : DayCtx) (shuffledServices : List Service) (st : DayState) : DayState :=
  if st.seniorAssigned then st else phase1Go ctx shuffledServices st

/-! Phase 2: fill every service up to its minimum, with a normal then a
desperate search, recording an EMPTY sentinel when both fail. -/

/-- The guarded sentinel push of the failed branch: the source re-checks
the live count against the minimum before pushing. -/
def phase2Sentinel (ctx : DayCtx) (sv : Service) (st : DayState) : DayState :=
  if (st.sim.asg ctx.day).countP (fun a => a.serviceId == sv.id) < sv.minDailyCount
  then pushSentinel ctx.day sv st
  else st

/-- `excludeRole: seniorAssignedToday ? 1 : undefined`. -/
def excludeSenior (st : DayState) : Option Nat :=
  if st.seniorAssigned then some 1 else none

/-- The inner `for i = currentServiceCount; i < min; i++` loop, with the
tracked `currentServiceCount` threaded explicitly. -/
def phase2Slot (ctx : DayCtx) (sv : Service) : Nat → DayState → Nat → DayState
  | 0, st, _ => st
  | n + 1, st, csc =>
    match ctx.find sv { excludeRole := excludeSenior st } st with
    | (some cand, st1) => phase2Slot ctx sv n (ctx.assign cand sv st1) (csc + 1)
    | (none, st1) =>
      if csc < sv.minDailyCount then
        match ctx.find sv { desperate := true, excludeRole := excludeSenior st1 } st1 with
        | (some cand, st2) => phase2Slot ctx sv n (ctx.assign cand sv st2) (csc + 1)
        | (none, st2) => phase2Slot ctx sv n (phase2Sentinel ctx sv st2) csc
      else phase2Slot ctx sv n (phase2Sentinel ctx sv st1) csc

/-- Phase 2 handling of one service. -/
def phase2Service (ctx : DayCtx) (st : DayState) (sv : Service) : DayState :=
  let c0 := (st.sim.asg ctx.day).countP (fun a => a.serviceId == sv.id)
  phase2Slot ctx sv (sv.minDailyCount - c0) st c0

/-- The service order of Phase 2, hardest first. -/
def dailyServicesSorted (sch : Scheduler) : List Service :=
  sortedBy (fun a b => decide (sch.getServiceDifficulty b ≤ sch.getServiceDifficulty a))
    sch.services

/-- Phase 2 over all services. -/
def phase2 (ctx : DayCtx) (st : DayState) : DayState :=
  (dailyServicesSorted ctx.sch).foldl (phase2Service ctx) st

/-! Phase 3: fill flexible services toward the daily total target. -/

/-- The services still below their maximum daily count. -/
def flexibleServices (sch : Scheduler) (day : Int) (st : DayState) : List Service :=
  sch.services.filter (fun s =>
    (st.sim.asg day).countP (fun a => a.serviceId == s.id) < s.maxDailyCount)

/-- The flexible services sorted by largest potential candidate pool. -/
def sortedFlexible (sch : Scheduler) (day : Int) (st : DayState) : List Service :=
  sortedBy (fun a b =>
      decide (sch.getPotentialCandidatesCount b ≤ sch.getPotentialCandidatesCount a))
    (flexibleServices sch day st)

/-- One pass over the flexible services: normal then desperate search per
service, stopping at the first success; the boolean is `filledSomething`. -/
def phase3Try (ctx : DayCtx) : List Service → DayState → DayState × Bool
  | [], st => (st, false)
  | sv :: rest, st =>
    match ctx.find sv { excludeRole := excludeSenior st } st with
    | (some cand, st1) => (ctx.assign cand sv st1, true)
    | (none, st1) =>
      match ctx.find sv { desperate := true, excludeRole := excludeSenior st1 } st1 with
      | (some cand, st2) => (ctx.assign cand sv st2, true)
      | (none, st2) => phase3Try ctx rest st2

/-- The guarded while loop of Phase 3 with its protection counter as
fuel; returns the state, the running total and the number of iterations
executed. -/
def phase3Loop (ctx : DayCtx) (target : Nat) :
    Nat → DayState → Nat → DayState × Nat × Nat
  | 0, st, total => (st, total, 0)
  | fuel + 1, st, total =>
    if total < target then
      if (flexibleServices ctx.sch ctx.day st).isEmpty then (st, total, 1)
      else
        match phase3Try ctx (sortedFlexible ctx.sch ctx.day st) st with
        | (st1, true) =>
          match phase3Loop ctx target fuel st1 (total + 1) with
          | (st2, total2, iters) => (st2, total2, iters + 1)
        | (st1, false) => (st1, total, 1)
    else (st, total, 0)

/-- Phase 3: runs only when a positive target is not yet met, with the
protection counter capping the loop at 50 iterations. -/
def phase3 (ctx : DayCtx) (st : DayState) : DayState :=
  let target := ctx.sch.config.dailyTotalTarget
  let currentTotal := (st.sim.asg ctx.day).countP (fun a => a.staffId != "EMPTY")
  if 0 < target ∧ currentTotal < target then (phase3Loop ctx target 50 st currentTotal).1
  else st

/-! The simulation driver and the retry loop. -/

/-- Final day state after the four phases of one day. -/
def dayEndState (sch : Scheduler) (jp : Nat → String → Int) (shuffle : List Service)
    (sim : SimState) (day : Int) : DayState :=
  let ctx := mkDayCtx sch jp day
  phase3 ctx (phase2 ctx (phase1 ctx shuffle (phase0 ctx ⟨sim, [], false⟩)))

/-- One iteration of the day loop of `runSimulation`. -/
def processDay (sch : Scheduler) (jp : Nat → String → Int) (shuffle : List Service)
    (sim : SimState) (day : Int) : SimState :=
  (dayEndState sch jp shuffle sim day).sim

/-- The calendar days 1 .. daysInMonth. -/
def daysList (sch : Scheduler) : List Int :=
  (List.range sch.daysInMonth).map (fun (i : Nat) => ((i : Int) + 1))

/-- The deterministic day order: hardest days first, stable on ties. -/
def daysOrderBase (sch : Scheduler) : List Int :=
  sortedBy (fun a b => decide (sch.getDayDifficulty b ≤ sch.getDayDifficulty a))
    (daysList sch)

/-- The day order actually processed: the oracle's shuffled order when
`randomizeOrder` is set, the deterministic order otherwise. -/
def effectiveDayOrder (sch : Scheduler) (orc : Oracle) : List Int :=
  if sch.config.randomizeOrder then orc.dayOrder else daysOrderBase sch

/-- Fresh per-attempt state. -/
def initSimState : SimState := ⟨fun _ => [], fun _ => StatRec.zero, 0, 0⟩

/-- Keys of the staff statistics map in insertion order (first occurrence
of each id wins, as JS `Map` iteration does). -/
def statsKeys (sch : Scheduler) : List String :=
  (sch.staff.map (fun s => s.id)).foldl
    (fun acc i => if acc.contains i then acc else acc ++ [i]) []

/-- A result statistics row from the running counters. -/
def mkStatsEntry (staffId : String) (s : StatRec) : Stats :=
  ⟨staffId, s.total, s.service, s.emergency, s.weekend, s.saturday, s.sunday⟩

/-- Method `runSimulation`: process the days in order, then assemble the
schedule for days 1 .. daysInMonth ascending.  `log` is never called in
this version of the engine, so the diagnostic log is empty. -/
def Scheduler.runSimulation (sch : Scheduler) (orc : Oracle) : ScheduleResult :=
  let final := (effectiveDayOrder sch orc).foldl
    (fun sim d => processDay sch orc.jitter (orc.shuffle d sch.services) sim d)
    initSimState
  { schedule := (List.range sch.daysInMonth).map (fun (i : Nat) =>
      ⟨(i : Int) + 1, final.asg ((i : Int) + 1), sch.isWeekendDay ((i : Int) + 1)⟩),
    unfilledSlots := final.unfilled,
    logs := [],
    stats := (statsKeys sch).map (fun i => mkStatsEntry i (final.stats i)) }

/-- The quota deviation of one attempt, summed over the result's
statistics rows against the staff definition found by id. -/
def totalDeviation (sch : Scheduler) (res : ScheduleResult) : Nat :=
  res.stats.foldl (fun acc e =>
    match sch.staff.find? (fun st => st.id == e.staffId) with
    | some st => acc + ((st.quotaService : Int) - (e.serviceShifts : Int)).natAbs
    | none => acc) 0

/-- One iteration of the retry loop of `generate`, carrying the best
result together with `minUnfilled` and `bestDeviation` (both start at
Infinity, modelled by the `none` accumulator). -/
def generateStep (sch : Scheduler) (orcs : Nat → Oracle)
    (acc : Option (ScheduleResult × Nat × Nat)) (attempt : Nat) :
    Option (ScheduleResult × Nat × Nat) :=
  let current := sch.runSimulation (orcs attempt)
  let dev := totalDeviation sch current
  match acc with
  | none => some (current, current.unfilledSlots, dev)
  | some (best, minUnfilled, bestDev) =>
    if current.unfilledSlots < minUnfilled then some (current, current.unfilledSlots, dev)
    else if current.unfilledSlots = minUnfilled ∧ dev < bestDev then
      some (current, minUnfilled, dev)
    else some (best, minUnfilled, bestDev)

/-- Method `generate`: run the retry loop and return the retained best
attempt; `none` embeds the thrown error when no attempt ran. -/
def Scheduler.generate (sch : Scheduler) (orcs : Nat → Oracle) : Option ScheduleResult :=
  ((List.range sch.config.maxRetries).foldl (generateStep sch orcs) none).map
    (fun b => b.1)

/-! Abstraction of the state mutations of one day: every change the four
phases make to the day state is a jitter draw, an `assignToSlot` of a
candidate that passed the filter for the current state, or a sentinel
push.  Invariants preserved by these three steps hold of every state the
day loop produces. -/

/-- One atomic mutation of the day state. -/
inductive DayStep (ctx : DayCtx) : DayState → DayState → Prop
  | rng (st : DayState) : DayStep ctx st (bumpRng st)
  | assign (st : DayState) (cand : Staff) (sv : Service) (opts : CandidateOptions)
      (hmem : cand ∈ ctx.sch.staff)
      (hok : candidateOk ctx.sch sv ctx.day st.assignedToday st.sim.asg st.sim.stats
        ctx.isWeekend ctx.isSat ctx.isSun opts cand = true) :
      DayStep ctx st (ctx.assign cand sv st)
  | sentinel (st : DayState) (sv : Service) : DayStep ctx st (pushSentinel ctx.day sv st)

/-- Reachability by day steps. -/
def Reaches (ctx : DayCtx) : DayState → DayState → Prop :=
  Relation.ReflTransGen (DayStep ctx)

/-! Invariants of the simulation state. -/

/-- Quota invariant: every staff member's ordinary count is within their
monthly quota and their weekend count within their weekend limit. -/
def QuotaInv (sch : Scheduler) (stats : String → StatRec) : Prop :=
  ∀ p ∈ sch.staff,
    (stats p.id).service ≤ p.quotaService ∧ (stats p.id).weekend ≤ p.weekendLimit

/-- Adjacency invariant: no non-sentinel staff id appears on two
consecutive days of the assignment map. -/
def AdjInv (mp : Int → List ShiftAssignment) : Prop :=
  ∀ (d : Int) (s : String), s ≠ "EMPTY" →
    hasShiftOnDay mp d s = true → hasShiftOnDay mp (d + 1) s = false

/-- Roommate invariant: staff computed as roommates never appear on the
same day nor on consecutive days of the assignment map. -/
def RoomInv (sch : Scheduler) (mp : Int → List ShiftAssignment) : Prop :=
  ∀ p ∈ sch.staff, ∀ q ∈ sch.staff, q.id ∈ sch.roommatesOf p.id →
    ∀ d : Int,
      ¬(hasShiftOnDay mp d p.id = true ∧ hasShiftOnDay mp d q.id = true) ∧
      ¬(hasShiftOnDay mp d p.id = true ∧ hasShiftOnDay mp (d + 1) q.id = true)

/-- Day-local invariant: every non-sentinel id already recorded on the
day being processed is in the `assignedTodayIds` set. -/
def DayLocal (day : Int) (st : DayState) : Prop :=
  ∀ s : String, s ≠ "EMPTY" → hasShiftOnDay st.sim.asg day s = true →
    st.assignedToday.contains s = true

/-- Number of assignment records (sentinels included) of slot type `sid`
on `day`. -/
def dayCount (sim : SimState) (day : Int) (sid : String) : Nat :=
  (sim.asg day).countP (fun a => a.serviceId == sid)

/-- Every service's count on `day` is within its daily minimum. -/
def CountLeMin (sch : Scheduler) (day : Int) (st : DayState) : Prop :=
  ∀ s ∈ sch.services, dayCount st.sim day s.id ≤ s.minDailyCount

/-- Every service's count on `day` is within its daily maximum. -/
def CountLeMax (sch : Scheduler) (day : Int) (st : DayState) : Prop :=
  ∀ s ∈ sch.services, dayCount st.sim day s.id ≤ s.maxDailyCount

/-- At most one of the two tracked specialties is triggered for the
weekday of `day`: Phase 0 reserves specialists without any capacity
check, so two different specialties landing on one day can overfill a
slot type. -/
def SingleSpecialty (sch : Scheduler) (day : Int) : Prop :=
  ¬(sch.config.unitConstraints.any (fun c =>
       c.allowedDays.contains (sch.dow day) && c.unit == "Transplantasyon") = true ∧
    sch.config.unitConstraints.any (fun c =>
       c.allowedDays.contains (sch.dow day) && c.unit == "Yara Bakım") = true)

/-! Concrete instances used by witnesses and counterexamples.  February
2025 starts on a Saturday, which makes weekend behaviour easy to hit. -/

/-- A minimal configuration: February 2025, one attempt, oracle-supplied
day order, no constraints, no daily target. -/
def cfgW : SchedulerConfig := ⟨2025, 1, 1, true, false, [], 0⟩

/-- A junior staff member with quota 2 and weekend limit 1. -/
def staffA : Staff := ⟨"a", "A", 3, "g", none, "", 2, 1, [], [], true⟩

/-- A single slot type requiring exactly one person per day. -/
def svW : Service := ⟨"s1", "S1", 1, 1, none, false⟩

/-- Oracle processing only days 1 and 2, with identity shuffle and zero
jitter. -/
def orcW : Oracle := ⟨[1, 2], fun _ l => l, fun _ _ => 0⟩

/-- One-staff one-service scheduler. -/
def schW : Scheduler := mkScheduler [staffA] [svW] cfgW

/-- Its generated result (day 1 filled by `a`, day 2 an EMPTY sentinel:
both the 24h rule and the weekend limit block a second assignment). -/
def resW : ScheduleResult := (schW.generate (fun _ => orcW)).getD ⟨[], 0, [], []⟩

/-- Two staff sharing room `r1`, otherwise identical to `staffA`. -/
def staffRa : Staff := ⟨"ra", "RA", 3, "g", none, "r1", 2, 1, [], [], true⟩

/-- Second roommate. -/
def staffRb : Staff := ⟨"rb", "RB", 3, "g", none, "r1", 2, 1, [], [], true⟩

/-- Roommate scheduler for the C3 witness. -/
def schW3 : Scheduler := mkScheduler [staffRa, staffRb] [svW] cfgW

/-- Its result: day 1 goes to `ra`; on day 2 `rb` is blocked by the
roommate-adjacency rule, so the slot becomes a sentinel. -/
def resW3 : ScheduleResult := (schW3.generate (fun _ => orcW)).getD ⟨[], 0, [], []⟩

/-- Configuration triggering both tracked specialties on Saturday. -/
def cfgC4 : SchedulerConfig :=
  ⟨2025, 1, 1, true, false, [⟨"Transplantasyon", [6]⟩, ⟨"Yara Bakım", [6]⟩], 0⟩

/-- A transplant specialist. -/
def staffT : Staff := ⟨"t", "T", 3, "g", some "transplant", "", 5, 5, [], [], true⟩

/-- A wound-care specialist. -/
def staffY : Staff := ⟨"y", "Y", 3, "g", some "wound", "", 5, 5, [], [], true⟩

/-- Oracle processing only day 1 (a Saturday). -/
def orcC4 : Oracle := ⟨[1], fun _ l => l, fun _ _ => 0⟩

/-- Scheduler whose Phase 0 places both specialists into the single slot
type of capacity 1 on day 1. -/
def schC4 : Scheduler := mkScheduler [staffT, staffY] [svW] cfgC4

/-- Its result: day 1 carries two assignments for service `s1` although
`maxDailyCount = 1`. -/
def resC4 : ScheduleResult := (schC4.generate (fun _ => orcC4)).getD ⟨[], 0, [], []⟩

/-- A configuration requesting zero retry attempts. -/
def cfgC6 : SchedulerConfig := ⟨2025, 1, 0, false, false, [], 0⟩

/-- Construction succeeds on it: the constructor performs no validation. -/
def schC6 : Scheduler := mkScheduler [] [] cfgC6

/-- Staff member `a` of the C7 scenario, with one recorded shift. -/
def staffA7 : Staff := ⟨"a", "A", 3, "g", none, "", 5, 5, [], [], true⟩

/-- Staff member `b` of the C7 scenario, off on day 3, zero shifts. -/
def staffB7 : Staff := ⟨"b", "B", 3, "g", none, "", 5, 5, [3], [], true⟩

/-- Two-junior scheduler for the C7 counterexample. -/
def schC7 : Scheduler := mkScheduler [staffA7, staffB7] [svW] cfgW

/-- Statistics snapshot: `a` has one ordinary shift, `b` has none, so the
tier minimum is 0 and `a` exceeds it by exactly one. -/
def statsC7 : String → StatRec := fun i => if i = "a" then ⟨1, 1, 0, 0, 0, 0⟩ else StatRec.zero

/-- The final per-attempt state of `runSimulation`, named for the proofs. -/
def finalSim (sch : Scheduler) (orc : Oracle) : SimState :=
  (effectiveDayOrder sch orc).foldl
    (fun sim d => processDay sch orc.jitter (orc.shuffle d sch.services) sim d)
    initSimState

/-- State of Phase 0 on a day that started empty: either nothing has been
placed on the day yet, or exactly one specialist of the day's single
target specialty occupies a positive-minimum service. -/
def P0Inv (sch : Scheduler) (day : Int) (t0 : String) (st : DayState) : Prop :=
  st.sim.asg day = [] ∨
  ∃ sv ∈ sch.services, 0 < sv.minDailyCount ∧
    ∃ c ∈ sch.staff, c.specialty = some t0 ∧ st.sim.asg day = [mkAssignment c sv]

/-! Basic lemmas about the sorting and selection helpers. -/

theorem mem_insertSorted {α : Type} (le : α → α → Bool) (x : α) :
    ∀ (l : List α) (a : α), a ∈ insertSorted le x l ↔ a = x ∨ a ∈ l := by
  intro l
  induction l with
  | nil => intro a; simp [insertSorted]
  | cons y ys ih =>
    intro a
    simp only [insertSorted]
    split
    · simp [List.mem_cons]
    · simp only [List.mem_cons, ih]
      tauto

theorem mem_sortedBy {α : Type} (le : α → α → Bool) (l : List α) (a : α) :
    a ∈ sortedBy le l ↔ a ∈ l := by
  induction l with
  | nil => simp [sortedBy]
  | cons y ys ih =>
    show a ∈ insertSorted le y (sortedBy le ys) ↔ _
    rw [mem_insertSorted]
    simp [ih]

theorem pickBestAux_mem (best : Staff) (s : Int) (l : List (Staff × Int)) :
    pickBestAux best s l ∈ best :: l.map Prod.fst := by
  induction l generalizing best s with
  | nil => simp [pickBestAux]
  | cons p rest ih =>
    obtain ⟨q, sc⟩ := p
    simp only [pickBestAux]
    split
    · have := ih q sc
      simp only [List.map_cons, List.mem_cons] at this ⊢
      tauto
    · have := ih best s
      simp only [List.map_cons, List.mem_cons] at this ⊢
      tauto

theorem findBestCandidate_some {sch : Scheduler} {sv : Service} {day : Int}
    {aT : List String} {mp : Int → List ShiftAssignment} {stats : String → StatRec}
    {w sa su fr : Bool} {opts : CandidateOptions} {jit : String → Int} {p : Staff}
    (h : sch.findBestCandidate sv day aT mp stats w sa su fr opts jit = some p) :
    p ∈ sch.staff ∧ candidateOk sch sv day aT mp stats w sa su opts p = true := by
  unfold Scheduler.findBestCandidate at h
  rcases hl : sch.staff.filter (candidateOk sch sv day aT mp stats w sa su opts) with
    _ | ⟨q, qs⟩
  · rw [hl] at h; simp at h
  · rw [hl] at h
    simp only [List.map_cons, Option.some.injEq] at h
    have hp : p ∈ q :: qs := by
      have hmem := pickBestAux_mem q
        (scoreOf sch day mp stats w opts jit q)
        (qs.map (fun r => (r, scoreOf sch day mp stats w opts jit r)))
      rw [h] at hmem
      simpa using hmem
    have : p ∈ sch.staff.filter (candidateOk sch sv day aT mp stats w sa su opts) := by
      rw [hl]; exact hp
    exact List.mem_filter.mp this

theorem findBestCandidate_none_iff {sch : Scheduler} {sv : Service} {day : Int}
    {aT : List String} {mp : Int → List ShiftAssignment} {stats : String → StatRec}
    {w sa su fr : Bool} {opts : CandidateOptions} {jit : String → Int} :
    sch.findBestCandidate sv day aT mp stats w sa su fr opts jit = none ↔
      sch.staff.filter (candidateOk sch sv day aT mp stats w sa su opts) = [] := by
  unfold Scheduler.findBestCandidate
  rcases hl : sch.staff.filter (candidateOk sch sv day aT mp stats w sa su opts) with
    _ | ⟨q, qs⟩ <;> simp

theorem findBestCandidate_none_jit {sch : Scheduler} {sv : Service} {day : Int}
    {aT : List String} {mp : Int → List ShiftAssignment} {stats : String → StatRec}
    {w sa su fr fr2 : Bool} {opts : CandidateOptions} {jit jit2 : String → Int}
    (h : sch.findBestCandidate sv day aT mp stats w sa su fr opts jit = none) :
    sch.findBestCandidate sv day aT mp stats w sa su fr2 opts jit2 = none := by
  rw [findBestCandidate_none_iff] at h ⊢
  exact h

theorem bnot_true {b : Bool} (h : (!b) = true) : b = false := by
  cases b <;> simp_all

theorem candidateOk_spec {sch : Scheduler} {sv : Service} {day : Int}
    {aT : List String} {mp : Int → List ShiftAssignment} {stats : String → StatRec}
    {w sa su : Bool} {opts : CandidateOptions} {p : Staff}
    (h : candidateOk sch sv day aT mp stats w sa su opts p = true) :
    aT.contains p.id = false ∧
    hasShiftOnDay mp (day - 1) p.id = false ∧
    hasShiftOnDay mp (day + 1) p.id = false ∧
    (∀ rid ∈ sch.roommatesOf p.id,
        aT.contains rid = false ∧ hasShiftOnDay mp (day - 1) rid = false ∧
        hasShiftOnDay mp (day + 1) rid = false) ∧
    (stats p.id).service < p.quotaService ∧
    (w = true → (stats p.id).weekend < p.weekendLimit) ∧
    (opts.desperate = false → horizontalBlocked sch stats p = false) ∧
    (∀ sp, opts.restrictSpecialty = some sp → sp ≠ "" → p.specialty = some sp) ∧
    (∀ r, opts.restrictRole = some r → p.role = r) := by
  simp only [candidateOk, Bool.and_eq_true, and_assoc] at h
  obtain ⟨h1, h2, h3, h4, h5, h6, h7, h8, h9, h10, h11, h12, h13, h14, h15⟩ := h
  refine ⟨?_, ?_, ?_, ?_, ?_, ?_, ?_, ?_, ?_⟩
  · exact bnot_true h4
  · exact bnot_true h6
  · exact bnot_true h7
  · intro rid hrid
    have hh := (List.all_eq_true.mp h9) rid hrid
    simp only [Bool.and_eq_true, and_assoc] at hh
    exact ⟨bnot_true hh.1, bnot_true hh.2.1, bnot_true hh.2.2⟩
  · exact of_decide_eq_true h10
  · intro hw
    rcases (Bool.or_eq_true _ _).mp h11 with hc | hc
    · rw [hw] at hc; exact absurd hc (by simp)
    · exact of_decide_eq_true hc
  · intro hd
    rcases (Bool.or_eq_true _ _).mp h15 with hc | hc
    · rw [hd] at hc; exact absurd hc (by simp)
    · exact bnot_true ((Bool.and_eq_true _ _).mp hc).2
  · intro sp hsp hne
    rw [hsp] at h3
    rcases (Bool.or_eq_true _ _).mp h3 with hc | hc
    · exact absurd (by simpa using hc) hne
    · simpa using hc
  · intro r hr
    rw [hr] at h1
    simpa using h1

/-! Effects of the atomic steps and reachability of the phase results. -/

theorem hasShift_push {mp : Int → List ShiftAssignment} {day : Int}
    {rec : ShiftAssignment} (d : Int) (s : String) :
    hasShiftOnDay (fun e => if e = day then mp day ++ [rec] else mp e) d s =
      (if d = day then (hasShiftOnDay mp day s || (rec.staffId == s))
       else hasShiftOnDay mp d s) := by
  unfold hasShiftOnDay
  by_cases h : d = day <;> simp [h, List.any_append]

theorem find_eq {ctx : DayCtx} {sv : Service} {opts : CandidateOptions}
    {st st1 : DayState} {copt : Option Staff}
    (h : ctx.find sv opts st = (copt, st1)) :
    st1 = bumpRng st ∧
    ctx.sch.findBestCandidate sv ctx.day st.assignedToday st.sim.asg st.sim.stats
      ctx.isWeekend ctx.isSat ctx.isSun ctx.isFri opts (ctx.jp st.sim.rng) = copt := by
  unfold DayCtx.find at h
  cases h
  exact ⟨rfl, rfl⟩

theorem reaches_refl {ctx : DayCtx} (st : DayState) : Reaches ctx st st :=
  Relation.ReflTransGen.refl

theorem reaches_trans {ctx : DayCtx} {a b c : DayState}
    (h1 : Reaches ctx a b) (h2 : Reaches ctx b c) : Reaches ctx a c :=
  Relation.ReflTransGen.trans h1 h2

theorem reaches_bump (ctx : DayCtx) (st : DayState) : Reaches ctx st (bumpRng st) :=
  Relation.ReflTransGen.single (DayStep.rng st)

theorem reaches_of_find_some {ctx : DayCtx} {sv : Service} {opts : CandidateOptions}
    {st st1 : DayState} {cand : Staff}
    (h : ctx.find sv opts st = (some cand, st1)) :
    Reaches ctx st (ctx.assign cand sv st1) := by
  obtain ⟨h1, h2⟩ := find_eq h
  subst h1
  obtain ⟨hmem, hok⟩ := findBestCandidate_some h2
  exact Relation.ReflTransGen.tail (Relation.ReflTransGen.single (DayStep.rng st))
    (DayStep.assign (bumpRng st) cand sv opts hmem hok)

theorem reaches_of_find_none {ctx : DayCtx} {sv : Service} {opts : CandidateOptions}
    {st st1 : DayState}
    (h : ctx.find sv opts st = (none, st1)) : Reaches ctx st st1 := by
  obtain ⟨h1, -⟩ := find_eq h
  subst h1
  exact reaches_bump ctx st

theorem reaches_preserve {ctx : DayCtx} {P : DayState → Prop}
    (hP : ∀ st st2, DayStep ctx st st2 → P st → P st2) :
    ∀ {st st2}, Reaches ctx st st2 → P st → P st2 := by
  intro st st2 h
  induction h with
  | refl => exact id
  | tail _ hbc ih => intro hp; exact hP _ _ hbc (ih hp)

theorem foldl_reaches {ctx : DayCtx} {β : Type} (f : DayState → β → DayState)
    (l : List β) (hf : ∀ st b, b ∈ l → Reaches ctx st (f st b)) :
    ∀ st : DayState, Reaches ctx st (l.foldl f st) := by
  induction l with
  | nil => intro st; exact reaches_refl st
  | cons b bs ih =>
    intro st
    exact reaches_trans (hf st b (by simp))
      (ih (fun st2 c hc => hf st2 c (by simp [hc])) (f st b))

theorem tryServicesPhase0_reaches (ctx : DayCtx) (target : String) :
    ∀ (l : List Service) (st : DayState),
      Reaches ctx st (tryServicesPhase0 ctx target l st) := by
  intro l
  induction l with
  | nil => intro st; exact reaches_refl st
  | cons sv rest ih =>
    intro st
    simp only [tryServicesPhase0]
    split
    · next _ _ h => exact reaches_of_find_some h
    · next _ _ h => exact reaches_trans (reaches_of_find_none h) (ih _)

theorem phase0Constraint_reaches (ctx : DayCtx) (st : DayState) (c : UnitConstraint) :
    Reaches ctx st (phase0Constraint ctx st c) := by
  unfold phase0Constraint
  split
  · split
    · split
      · exact reaches_refl st
      · exact tryServicesPhase0_reaches ctx _ _ st
    · exact reaches_refl st
  · exact reaches_refl st

theorem phase0_reaches (ctx : DayCtx) (st : DayState) :
    Reaches ctx st (phase0 ctx st) :=
  foldl_reaches _ _ (fun st2 c _ => phase0Constraint_reaches ctx st2 c) st

theorem phase1Go_reaches (ctx : DayCtx) :
    ∀ (l : List Service) (st : DayState), Reaches ctx st (phase1Go ctx l st) := by
  intro l
  induction l with
  | nil => intro st; exact reaches_refl st
  | cons sv rest ih =>
    intro st
    simp only [phase1Go]
    split
    · exact reaches_refl st
    · split
      · exact ih st
      · split
        · exact ih st
        · split
          · next _ _ h =>
            exact reaches_trans (reaches_of_find_some h) (ih _)
          · next _ _ h =>
            exact reaches_trans (reaches_of_find_none h) (ih _)

theorem phase1_reaches (ctx : DayCtx) (shuffle : List Service) (st : DayState) :
    Reaches ctx st (phase1 ctx shuffle st) := by
  unfold phase1
  split
  · exact reaches_refl st
  · exact phase1Go_reaches ctx shuffle st

theorem phase2Sentinel_reaches (ctx : DayCtx) (sv : Service) (st : DayState) :
    Reaches ctx st (phase2Sentinel ctx sv st) := by
  unfold phase2Sentinel
  split
  · exact Relation.ReflTransGen.single (DayStep.sentinel st sv)
  · exact reaches_refl st

theorem phase2Slot_reaches (ctx : DayCtx) (sv : Service) :
    ∀ (n : Nat) (st : DayState) (csc : Nat),
      Reaches ctx st (phase2Slot ctx sv n st csc) := by
  intro n
  induction n with
  | zero => intro st csc; exact reaches_refl st
  | succ n ih =>
    intro st csc
    rcases h : ctx.find sv { excludeRole := excludeSenior st } st with ⟨copt, st1⟩
    cases copt with
    | some cand =>
      simp only [phase2Slot, h]
      exact reaches_trans (reaches_of_find_some h) (ih _ _)
    | none =>
      simp only [phase2Slot, h]
      by_cases hc : csc < sv.minDailyCount
      · rw [if_pos hc]
        rcases h2 : ctx.find sv { desperate := true, excludeRole := excludeSenior st1 } st1
          with ⟨copt2, st2⟩
        cases copt2 with
        | some cand =>
          simp only [h2]
          exact reaches_trans (reaches_of_find_none h)
            (reaches_trans (reaches_of_find_some h2) (ih _ _))
        | none =>
          simp only [h2]
          exact reaches_trans (reaches_of_find_none h)
            (reaches_trans (reaches_of_find_none h2)
              (reaches_trans (phase2Sentinel_reaches ctx sv st2) (ih _ _)))
      · rw [if_neg hc]
        exact reaches_trans (reaches_of_find_none h)
          (reaches_trans (phase2Sentinel_reaches ctx sv st1) (ih _ _))

theorem phase2Service_reaches (ctx : DayCtx) (st : DayState) (sv : Service) :
    Reaches ctx st (phase2Service ctx st sv) :=
  phase2Slot_reaches ctx sv _ st _

theorem phase2_reaches (ctx : DayCtx) (st : DayState) :
    Reaches ctx st (phase2 ctx st) :=
  foldl_reaches _ _ (fun st2 sv _ => phase2Service_reaches ctx st2 sv) st

theorem phase3Try_reaches (ctx : DayCtx) :
    ∀ (l : List Service) (st : DayState), Reaches ctx st (phase3Try ctx l st).1 := by
  intro l
  induction l with
  | nil => intro st; exact reaches_refl st
  | cons sv rest ih =>
    intro st
    rcases h : ctx.find sv { excludeRole := excludeSenior st } st with ⟨copt, st1⟩
    cases copt with
    | some cand =>
      simp only [phase3Try, h]
      exact reaches_of_find_some h
    | none =>
      rcases h2 : ctx.find sv { desperate := true, excludeRole := excludeSenior st1 } st1
        with ⟨copt2, st2⟩
      cases copt2 with
      | some cand =>
        simp only [phase3Try, h, h2]
        exact reaches_trans (reaches_of_find_none h) (reaches_of_find_some h2)
      | none =>
        simp only [phase3Try, h, h2]
        exact reaches_trans (reaches_of_find_none h)
          (reaches_trans (reaches_of_find_none h2) (ih _))

theorem phase3Loop_reaches (ctx : DayCtx) (target : Nat) :
    ∀ (fuel : Nat) (st : DayState) (total : Nat),
      Reaches ctx st (phase3Loop ctx target fuel st total).1 := by
  intro fuel
  induction fuel with
  | zero => intro st total; exact reaches_refl st
  | succ fuel ih =>
    intro st total
    simp only [phase3Loop]
    by_cases h : total < target
    · rw [if_pos h]
      by_cases he : (flexibleServices ctx.sch ctx.day st).isEmpty = true
      · rw [if_pos he]
        exact reaches_refl st
      · rw [if_neg he]
        rcases htry : phase3Try ctx (sortedFlexible ctx.sch ctx.day st) st with ⟨st1, filled⟩
        have h1 : Reaches ctx st st1 := by
          have hr := phase3Try_reaches ctx (sortedFlexible ctx.sch ctx.day st) st
          rw [htry] at hr
          exact hr
        cases filled with
        | true =>
          simp only [htry]
          rcases hloop : phase3Loop ctx target fuel st1 (total + 1) with ⟨st2, t2, i⟩
          simp only [hloop]
          have h3 := ih st1 (total + 1)
          rw [hloop] at h3
          exact reaches_trans h1 h3
        | false =>
          simp only [htry]
          exact h1
    · rw [if_neg h]
      exact reaches_refl st

theorem phase3_reaches (ctx : DayCtx) (st : DayState) :
    Reaches ctx st (phase3 ctx st) := by
  simp only [phase3]
  split
  · exact phase3Loop_reaches ctx _ 50 st _
  · exact reaches_refl st

theorem dayEndState_reaches (sch : Scheduler) (jp : Nat → String → Int)
    (shuffle : List Service) (sim : SimState) (day : Int) :
    Reaches (mkDayCtx sch jp day) ⟨sim, [], false⟩
      (dayEndState sch jp shuffle sim day) := by
  unfold dayEndState
  exact reaches_trans (phase0_reaches _ _)
    (reaches_trans (phase1_reaches _ _ _)
      (reaches_trans (phase2_reaches _ _) (phase3_reaches _ _)))

theorem dayStep_asg_ne {ctx : DayCtx} {st st2 : DayState}
    (h : DayStep ctx st st2) (d : Int) (hd : d ≠ ctx.day) :
    st2.sim.asg d = st.sim.asg d := by
  cases h with
  | rng => rfl
  | assign cand sv opts hmem hok => simp [DayCtx.assign, assignToSlot, hd]
  | sentinel sv => simp [pushSentinel, hd]

theorem reaches_asg_ne {ctx : DayCtx} {st st2 : DayState}
    (h : Reaches ctx st st2) (d : Int) (hd : d ≠ ctx.day) :
    st2.sim.asg d = st.sim.asg d := by
  induction h with
  | refl => rfl
  | tail _ hbc ih => rw [dayStep_asg_ne hbc d hd, ih]

theorem processDay_asg_ne (sch : Scheduler) (jp : Nat → String → Int)
    (shuffle : List Service) (sim : SimState) (day d : Int) (hd : d ≠ day) :
    (processDay sch jp shuffle sim day).asg d = sim.asg d :=
  reaches_asg_ne (dayEndState_reaches sch jp shuffle sim day) d hd

/-! Quota invariant: preserved by every step, hence by the whole month. -/

theorem dayStep_quota {ctx : DayCtx} {st st2 : DayState}
    (hnd : (ctx.sch.staff.map (fun s => s.id)).Nodup)
    (h : DayStep ctx st st2) (hq : QuotaInv ctx.sch st.sim.stats) :
    QuotaInv ctx.sch st2.sim.stats := by
  cases h with
  | rng => exact hq
  | sentinel sv => exact hq
  | assign cand sv opts hmem hok =>
    obtain ⟨-, -, -, -, hquota, hweek, -, -, -⟩ := candidateOk_spec hok
    intro p hp
    have hst : (DayCtx.assign ctx cand sv st).sim.stats p.id =
        (if p.id = cand.id then
          bumpStat ctx.isWeekend ctx.isSat ctx.isSun (st.sim.stats cand.id)
        else st.sim.stats p.id) := rfl
    rw [hst]
    by_cases hid : p.id = cand.id
    · have hpc : p = cand := List.inj_on_of_nodup_map hnd hp hmem hid
      rw [if_pos hid, hpc]
      constructor
      · simp only [bumpStat]
        omega
      · simp only [bumpStat]
        rcases hw : ctx.isWeekend with _ | _
        · have h2 := (hq cand hmem).2
          show (st.sim.stats cand.id).weekend + 0 ≤ cand.weekendLimit
          omega
        · have h2 := hweek hw
          show (st.sim.stats cand.id).weekend + 1 ≤ cand.weekendLimit
          omega
    · rw [if_neg hid]
      exact hq p hp

theorem reaches_quota {ctx : DayCtx} {st st2 : DayState}
    (hnd : (ctx.sch.staff.map (fun s => s.id)).Nodup)
    (h : Reaches ctx st st2) (hq : QuotaInv ctx.sch st.sim.stats) :
    QuotaInv ctx.sch st2.sim.stats :=
  reaches_preserve (fun _ _ hab => dayStep_quota hnd hab) h hq

theorem foldDays_quota (sch : Scheduler) (orc : Oracle)
    (hnd : (sch.staff.map (fun s => s.id)).Nodup) :
    ∀ (days : List Int) (sim : SimState), QuotaInv sch sim.stats →
      QuotaInv sch ((days.foldl
        (fun s d => processDay sch orc.jitter (orc.shuffle d sch.services) s d)
        sim).stats) := by
  intro days
  induction days with
  | nil => intro sim h; exact h
  | cons d rest ih =>
    intro sim h
    apply ih
    exact reaches_quota hnd
      (dayEndState_reaches sch orc.jitter (orc.shuffle d sch.services) sim d) h

theorem runSim_quota (sch : Scheduler) (orc : Oracle)
    (hnd : (sch.staff.map (fun s => s.id)).Nodup) :
    ∀ e ∈ (sch.runSimulation orc).stats, ∀ p ∈ sch.staff, e.staffId = p.id →
      e.serviceShifts ≤ p.quotaService ∧ e.weekendShifts ≤ p.weekendLimit := by
  intro e he p hp hep
  have hbase : QuotaInv sch initSimState.stats := by
    intro q hq
    exact ⟨Nat.zero_le _, Nat.zero_le _⟩
  have hq := foldDays_quota sch orc hnd (effectiveDayOrder sch orc) initSimState hbase
  simp only [Scheduler.runSimulation, List.mem_map] at he
  obtain ⟨i, hi, rfl⟩ := he
  have hid : i = p.id := hep
  rw [hid] at *
  exact ⟨(hq p hp).1, (hq p hp).2⟩

/-! The retry loop of `generate`: the accumulator always stores the
lexicographic minimum of (unfilled slots, quota deviation) over the
attempts seen so far, realised by one of them. -/

theorem generateFold_spec (sch : Scheduler) (orcs : Nat → Oracle) :
    ∀ n : Nat, 0 < n →
    ∃ b : ScheduleResult,
      (List.range n).foldl (generateStep sch orcs) none =
        some (b, b.unfilledSlots, totalDeviation sch b) ∧
      (∃ i, i < n ∧ b = sch.runSimulation (orcs i)) ∧
      (∀ i, i < n → b.unfilledSlots ≤ (sch.runSimulation (orcs i)).unfilledSlots ∧
        (b.unfilledSlots = (sch.runSimulation (orcs i)).unfilledSlots →
          totalDeviation sch b ≤ totalDeviation sch (sch.runSimulation (orcs i)))) := by
  intro n
  induction n with
  | zero => omega
  | succ n ih =>
    intro _
    rw [List.range_succ, List.foldl_append, List.foldl_cons, List.foldl_nil]
    by_cases hn0 : 0 < n
    · obtain ⟨b, hfold, ⟨i0, hi0, hb0⟩, hmin⟩ := ih hn0
      rw [hfold]
      simp only [generateStep]
      by_cases h1 : (sch.runSimulation (orcs n)).unfilledSlots < b.unfilledSlots
      · rw [if_pos h1]
        refine ⟨sch.runSimulation (orcs n), rfl, ⟨n, by omega, rfl⟩, ?_⟩
        intro i hi
        by_cases hin : i < n
        · have := hmin i hin
          constructor
          · omega
          · intro he
            omega
        · have : i = n := by omega
          rw [this]
          exact ⟨le_refl _, fun _ => le_refl _⟩
      · rw [if_neg h1]
        by_cases h2 : (sch.runSimulation (orcs n)).unfilledSlots = b.unfilledSlots ∧
            totalDeviation sch (sch.runSimulation (orcs n)) < totalDeviation sch b
        · rw [if_pos h2]
          refine ⟨sch.runSimulation (orcs n), ?_, ⟨n, by omega, rfl⟩, ?_⟩
          · rw [h2.1]
          · intro i hi
            by_cases hin : i < n
            · have h3 := hmin i hin
              constructor
              · omega
              · intro he
                have h4 : b.unfilledSlots = (sch.runSimulation (orcs i)).unfilledSlots := by omega
                have := h3.2 h4
                omega
            · have : i = n := by omega
              rw [this]
              exact ⟨le_refl _, fun _ => le_refl _⟩
        · rw [if_neg h2]
          refine ⟨b, rfl, ⟨i0, by omega, hb0⟩, ?_⟩
          intro i hi
          by_cases hin : i < n
          · exact hmin i hin
          · have : i = n := by omega
            rw [this]
            constructor
            · omega
            · intro he
              have : ¬ totalDeviation sch (sch.runSimulation (orcs n)) < totalDeviation sch b := by
                intro hlt
                exact h2 ⟨he.symm, hlt⟩
              omega
    · have hn1 : n = 0 := by omega
      subst hn1
      simp only [List.range_zero, List.foldl_nil]
      simp only [generateStep]
      refine ⟨sch.runSimulation (orcs 0), rfl, ⟨0, by omega, rfl⟩, ?_⟩
      intro i hi
      have : i = 0 := by omega
      rw [this]
      exact ⟨le_refl _, fun _ => le_refl _⟩

theorem generate_spec {sch : Scheduler} {orcs : Nat → Oracle} {res : ScheduleResult}
    (h : sch.generate orcs = some res) :
    (∃ i, i < sch.config.maxRetries ∧ res = sch.runSimulation (orcs i)) ∧
    (∀ i, i < sch.config.maxRetries →
      res.unfilledSlots ≤ (sch.runSimulation (orcs i)).unfilledSlots ∧
      (res.unfilledSlots = (sch.runSimulation (orcs i)).unfilledSlots →
        totalDeviation sch res ≤ totalDeviation sch (sch.runSimulation (orcs i)))) := by
  unfold Scheduler.generate at h
  by_cases hn : 0 < sch.config.maxRetries
  · obtain ⟨b, hfold, hex, hmin⟩ := generateFold_spec sch orcs _ hn
    rw [hfold] at h
    simp at h
    subst h
    exact ⟨hex, hmin⟩
  · have h0 : sch.config.maxRetries = 0 := by omega
    rw [h0] at h
    simp at h

/-! Adjacency invariant: the strict 24h rule holds of the whole map. -/

theorem dayStep_adj {ctx : DayCtx} {st st2 : DayState}
    (h : DayStep ctx st st2) (ha : AdjInv st.sim.asg) : AdjInv st2.sim.asg := by
  cases h with
  | rng => exact ha
  | assign cand sv opts hmem hok =>
    obtain ⟨-, hm1, hp1, -, -, -, -, -, -⟩ := candidateOk_spec hok
    intro d s hs hsd
    have heq : (DayCtx.assign ctx cand sv st).sim.asg =
        (fun e => if e = ctx.day then st.sim.asg ctx.day ++ [mkAssignment cand sv]
         else st.sim.asg e) := rfl
    rw [heq, hasShift_push] at hsd
    rw [heq, hasShift_push]
    by_cases hd : d = ctx.day
    · rw [if_pos hd] at hsd
      have hne : ¬(d + 1 = ctx.day) := by omega
      rw [if_neg hne]
      rcases (Bool.or_eq_true _ _).mp hsd with hc | hc
      · have hres := ha ctx.day s hs hc
        rw [hd]
        exact hres
      · have hsc : s = cand.id := by
          have hr : (mkAssignment cand sv).staffId = cand.id := rfl
          rw [hr] at hc
          exact (beq_iff_eq.mp hc).symm
        rw [hd, hsc]
        exact hp1
    · rw [if_neg hd] at hsd
      by_cases hd1 : d + 1 = ctx.day
      · rw [if_pos hd1]
        have hx : hasShiftOnDay st.sim.asg ctx.day s = false := by
          have hres := ha d s hs hsd
          rwa [hd1] at hres
        have hy : ((mkAssignment cand sv).staffId == s) = false := by
          apply beq_eq_false_iff_ne.mpr
          intro hcs
          have hr : (mkAssignment cand sv).staffId = cand.id := rfl
          rw [hr] at hcs
          have hdm : ctx.day - 1 = d := by omega
          rw [hdm] at hm1
          rw [← hcs] at hsd
          rw [hm1] at hsd
          exact Bool.false_ne_true hsd
        rw [hx, hy]
        rfl
      · rw [if_neg hd1]
        exact ha d s hs hsd
  | sentinel sv =>
    intro d s hs hsd
    have heq : (pushSentinel ctx.day sv st).sim.asg =
        (fun e => if e = ctx.day then st.sim.asg ctx.day ++ [emptyAssignment sv]
         else st.sim.asg e) := rfl
    rw [heq, hasShift_push] at hsd
    rw [heq, hasShift_push]
    have hrec : (emptyAssignment sv).staffId = "EMPTY" := rfl
    by_cases hd : d = ctx.day
    · rw [if_pos hd] at hsd
      have hne : ¬(d + 1 = ctx.day) := by omega
      rw [if_neg hne]
      rcases (Bool.or_eq_true _ _).mp hsd with hc | hc
      · have hres := ha ctx.day s hs hc
        rw [hd]
        exact hres
      · rw [hrec] at hc
        exact absurd (beq_iff_eq.mp hc).symm hs
    · rw [if_neg hd] at hsd
      by_cases hd1 : d + 1 = ctx.day
      · rw [if_pos hd1]
        have hx : hasShiftOnDay st.sim.asg ctx.day s = false := by
          have hres := ha d s hs hsd
          rwa [hd1] at hres
        have hy : ((emptyAssignment sv).staffId == s) = false := by
          rw [hrec]
          exact beq_eq_false_iff_ne.mpr (fun hc => hs hc.symm)
        rw [hx, hy]
        rfl
      · rw [if_neg hd1]
        exact ha d s hs hsd

theorem foldDays_adj (sch : Scheduler) (orc : Oracle) :
    ∀ (days : List Int) (sim : SimState), AdjInv sim.asg →
      AdjInv ((days.foldl
        (fun s d => processDay sch orc.jitter (orc.shuffle d sch.services) s d)
        sim).asg) := by
  intro days
  induction days with
  | nil => intro sim h; exact h
  | cons d rest ih =>
    intro sim h
    apply ih
    exact reaches_preserve (fun _ _ hab => dayStep_adj hab)
      (dayEndState_reaches sch orc.jitter (orc.shuffle d sch.services) sim d) h

theorem runSimulation_eq (sch : Scheduler) (orc : Oracle) :
    sch.runSimulation orc =
      { schedule := (List.range sch.daysInMonth).map (fun (i : Nat) =>
          ⟨(i : Int) + 1, (finalSim sch orc).asg ((i : Int) + 1),
            sch.isWeekendDay ((i : Int) + 1)⟩),
        unfilledSlots := (finalSim sch orc).unfilled,
        logs := [],
        stats := (statsKeys sch).map (fun i => mkStatsEntry i ((finalSim sch orc).stats i)) } :=
  rfl

theorem runSim_schedule_mem {sch : Scheduler} {orc : Oracle} {ds : DaySchedule}
    (h : ds ∈ (sch.runSimulation orc).schedule) :
    ∃ i : Nat, i < sch.daysInMonth ∧ ds.day = (i : Int) + 1 ∧
      ds.assignments = (finalSim sch orc).asg ((i : Int) + 1) ∧
      ds.isWeekend = sch.isWeekendDay ((i : Int) + 1) := by
  rw [runSimulation_eq] at h
  obtain ⟨i, hi, hip⟩ := List.mem_map.mp h
  rw [List.mem_range] at hi
  refine ⟨i, hi, ?_, ?_, ?_⟩ <;> rw [← hip]

theorem finalSim_adj (sch : Scheduler) (orc : Oracle) : AdjInv (finalSim sch orc).asg := by
  have hbase : AdjInv initSimState.asg := by
    intro d s2 hs2 hcontr
    simp [initSimState, hasShiftOnDay] at hcontr
  exact foldDays_adj sch orc (effectiveDayOrder sch orc) initSimState hbase

theorem runSim_adj (sch : Scheduler) (orc : Oracle) :
    ∀ d1 ∈ (sch.runSimulation orc).schedule, ∀ d2 ∈ (sch.runSimulation orc).schedule,
      d2.day = d1.day + 1 → ∀ s : String, s ≠ "EMPTY" →
      (d1.assignments.any (fun a => a.staffId == s) &&
       d2.assignments.any (fun a => a.staffId == s)) = false := by
  intro d1 h1 d2 h2 hd s hs
  obtain ⟨i, hi, hdi, hai, -⟩ := runSim_schedule_mem h1
  obtain ⟨j, hj, hdj, haj, -⟩ := runSim_schedule_mem h2
  rw [hai, haj]
  rw [hdi, hdj] at hd
  cases h1b : ((finalSim sch orc).asg ((i : Int) + 1)).any (fun a => a.staffId == s) with
  | false => rfl
  | true =>
    have hres : hasShiftOnDay (finalSim sch orc).asg ((i : Int) + 1 + 1) s = false :=
      finalSim_adj sch orc ((i : Int) + 1) s hs h1b
    have hres2 : (((finalSim sch orc).asg ((i : Int) + 1 + 1)).any
        (fun a => a.staffId == s)) = false := hres
    rw [hd, hres2]
    rfl

/-! Roommate analysis under well-formed (duplicate-free) staff ids. -/

theorem hasShift_push_of_ne {mp : Int → List ShiftAssignment} {day d : Int}
    {rec : ShiftAssignment} {s : String} (hs : rec.staffId ≠ s) :
    hasShiftOnDay (fun e => if e = day then mp day ++ [rec] else mp e) d s =
      hasShiftOnDay mp d s := by
  rw [hasShift_push]
  by_cases h : d = day
  · rw [if_pos h, h]
    rw [beq_eq_false_iff_ne.mpr hs]
    rw [Bool.or_false]
  · rw [if_neg h]

theorem find_nodup_id {staff : List Staff}
    (hnd : (staff.map (fun s => s.id)).Nodup) {p : Staff} (hp : p ∈ staff) :
    staff.find? (fun s => s.id == p.id) = some p := by
  induction staff with
  | nil => cases hp
  | cons q rest ih =>
    rw [List.map_cons, List.nodup_cons] at hnd
    rcases List.mem_cons.mp hp with hq | hq
    · subst hq
      simp [List.find?]
    · have hne : q.id ≠ p.id := by
        intro he
        exact hnd.1 (he ▸ List.mem_map_of_mem (fun s => s.id) hq)
      rw [List.find?]
      rw [beq_eq_false_iff_ne.mpr hne]
      exact ih hnd.2 hq

theorem revfind_nodup_id {staff : List Staff}
    (hnd : (staff.map (fun s => s.id)).Nodup) {p : Staff} (hp : p ∈ staff) :
    staff.reverse.find? (fun s => s.id == p.id) = some p := by
  apply find_nodup_id
  · rw [List.map_reverse]
    exact List.nodup_reverse.mpr hnd
  · exact List.mem_reverse.mpr hp

theorem roommatesOf_eq {sch : Scheduler}
    (hnd : (sch.staff.map (fun s => s.id)).Nodup) {p : Staff} (hp : p ∈ sch.staff) :
    sch.roommatesOf p.id = roommatesList sch.staff p := by
  unfold Scheduler.roommatesOf
  rw [revfind_nodup_id hnd hp]

theorem mem_roommatesOf_iff {sch : Scheduler}
    (hnd : (sch.staff.map (fun s => s.id)).Nodup) {p q : Staff}
    (hp : p ∈ sch.staff) (hq : q ∈ sch.staff) :
    q.id ∈ sch.roommatesOf p.id ↔
      (p.room.data.all Char.isWhitespace = false ∧ q.room = p.room ∧ q.id ≠ p.id) := by
  rw [roommatesOf_eq hnd hp]
  unfold roommatesList
  by_cases hb : p.room.data.all Char.isWhitespace = true
  · rw [if_pos hb]
    simp only [List.not_mem_nil, false_iff]
    intro hcon
    rw [hcon.1] at hb
    cases hb
  · rw [if_neg hb]
    constructor
    · intro h
      obtain ⟨hmemq, hneq⟩ := List.mem_filter.mp h
      obtain ⟨t, ht, hid⟩ := List.mem_map.mp hmemq
      obtain ⟨htmem, htroom⟩ := List.mem_filter.mp ht
      have htq : t = q := List.inj_on_of_nodup_map hnd htmem hq hid
      refine ⟨Bool.not_eq_true _ ▸ hb, ?_, ?_⟩
      · rw [← htq]
        exact beq_iff_eq.mp htroom
      · rw [← hid, htq] at hneq
        exact bne_iff_ne.mp (htq ▸ hneq)
    · rintro ⟨-, hroom, hne⟩
      apply List.mem_filter.mpr
      refine ⟨?_, bne_iff_ne.mpr hne⟩
      apply List.mem_map.mpr
      exact ⟨q, List.mem_filter.mpr ⟨hq, beq_iff_eq.mpr hroom⟩, rfl⟩

theorem roommatesOf_symm {sch : Scheduler}
    (hnd : (sch.staff.map (fun s => s.id)).Nodup) {p q : Staff}
    (hp : p ∈ sch.staff) (hq : q ∈ sch.staff)
    (h : q.id ∈ sch.roommatesOf p.id) : p.id ∈ sch.roommatesOf q.id := by
  obtain ⟨hb, hroom, hne⟩ := (mem_roommatesOf_iff hnd hp hq).mp h
  apply (mem_roommatesOf_iff hnd hq hp).mpr
  refine ⟨?_, hroom.symm, fun e => hne e.symm⟩
  rw [hroom]
  exact hb

theorem roommatesOf_ne {sch : Scheduler}
    (hnd : (sch.staff.map (fun s => s.id)).Nodup) {p q : Staff}
    (hp : p ∈ sch.staff) (hq : q ∈ sch.staff)
    (h : q.id ∈ sch.roommatesOf p.id) : q.id ≠ p.id :=
  ((mem_roommatesOf_iff hnd hp hq).mp h).2.2

theorem dayStep_room {ctx : DayCtx} {st st2 : DayState}
    (hnd : (ctx.sch.staff.map (fun s => s.id)).Nodup)
    (hne : ∀ p ∈ ctx.sch.staff, p.id ≠ "EMPTY")
    (h : DayStep ctx st st2)
    (hi : RoomInv ctx.sch st.sim.asg ∧ DayLocal ctx.day st) :
    RoomInv ctx.sch st2.sim.asg ∧ DayLocal ctx.day st2 := by
  obtain ⟨hroom, hdl⟩ := hi
  cases h with
  | rng => exact ⟨hroom, hdl⟩
  | sentinel sv =>
    have heq : (pushSentinel ctx.day sv st).sim.asg =
        (fun e => if e = ctx.day then st.sim.asg ctx.day ++ [emptyAssignment sv]
         else st.sim.asg e) := rfl
    constructor
    · intro p hp q hq hpq d
      have hps : (emptyAssignment sv).staffId ≠ p.id := fun hcon => (hne p hp) hcon.symm
      have hqs : (emptyAssignment sv).staffId ≠ q.id := fun hcon => (hne q hq) hcon.symm
      rw [heq]
      simp only [hasShift_push_of_ne hps, hasShift_push_of_ne hqs]
      exact hroom p hp q hq hpq d
    · intro s hs hshift
      rw [heq] at hshift
      have hss : (emptyAssignment sv).staffId ≠ s := fun hcon => hs hcon.symm
      rw [hasShift_push_of_ne hss] at hshift
      exact hdl s hs hshift
  | assign cand sv opts hmem hok =>
    obtain ⟨-, -, -, hrom, -, -, -, -, -⟩ := candidateOk_spec hok
    have heq : (DayCtx.assign ctx cand sv st).sim.asg =
        (fun e => if e = ctx.day then st.sim.asg ctx.day ++ [mkAssignment cand sv]
         else st.sim.asg e) := rfl
    have hrec : (mkAssignment cand sv).staffId = cand.id := rfl
    constructor
    · intro p hp q hq hpq d
      constructor
      · rintro ⟨hp1, hq1⟩
        rw [heq, hasShift_push] at hp1 hq1
        by_cases hd : d = ctx.day
        · subst hd
          rw [if_pos rfl] at hp1 hq1
          rcases (Bool.or_eq_true _ _).mp hp1 with hpo | hpe
          · rcases (Bool.or_eq_true _ _).mp hq1 with hqo | hqe
            · exact (hroom p hp q hq hpq ctx.day).1 ⟨hpo, hqo⟩
            · have hpin := hdl p.id (hne p hp) hpo
              have hcq : cand.id = q.id := by rw [hrec] at hqe; exact beq_iff_eq.mp hqe
              have hsym := roommatesOf_symm hnd hp hq hpq
              rw [← hcq] at hsym
              have hcf := (hrom p.id hsym).1
              rw [hpin] at hcf
              exact Bool.noConfusion hcf
          · have hcp : cand.id = p.id := by rw [hrec] at hpe; exact beq_iff_eq.mp hpe
            rcases (Bool.or_eq_true _ _).mp hq1 with hqo | hqe
            · have hqin := hdl q.id (hne q hq) hqo
              have hpq2 : q.id ∈ ctx.sch.roommatesOf cand.id := by rw [hcp]; exact hpq
              have hcf := (hrom q.id hpq2).1
              rw [hqin] at hcf
              exact Bool.noConfusion hcf
            · have hcq : cand.id = q.id := by rw [hrec] at hqe; exact beq_iff_eq.mp hqe
              have hqp : q.id = p.id := by rw [← hcq, hcp]
              exact roommatesOf_ne hnd hp hq hpq hqp
        · rw [if_neg hd] at hp1 hq1
          exact (hroom p hp q hq hpq d).1 ⟨hp1, hq1⟩
      · rintro ⟨hp1, hq1⟩
        rw [heq, hasShift_push] at hp1 hq1
        by_cases hd : d = ctx.day
        · subst hd
          have hd1 : ¬(ctx.day + 1 = ctx.day) := by omega
          rw [if_pos rfl] at hp1
          rw [if_neg hd1] at hq1
          rcases (Bool.or_eq_true _ _).mp hp1 with hpo | hpe
          · exact (hroom p hp q hq hpq ctx.day).2 ⟨hpo, hq1⟩
          · have hcp : cand.id = p.id := by rw [hrec] at hpe; exact beq_iff_eq.mp hpe
            have hpq2 : q.id ∈ ctx.sch.roommatesOf cand.id := by rw [hcp]; exact hpq
            have hcf := (hrom q.id hpq2).2.2
            rw [hq1] at hcf
            exact Bool.noConfusion hcf
        · rw [if_neg hd] at hp1
          by_cases hd1 : d + 1 = ctx.day
          · rw [if_pos hd1] at hq1
            rcases (Bool.or_eq_true _ _).mp hq1 with hqo | hqe
            · refine (hroom p hp q hq hpq d).2 ⟨hp1, ?_⟩
              rw [hd1]
              exact hqo
            · have hcq : cand.id = q.id := by rw [hrec] at hqe; exact beq_iff_eq.mp hqe
              have hsym := roommatesOf_symm hnd hp hq hpq
              rw [← hcq] at hsym
              have hcf := (hrom p.id hsym).2.1
              have hdm : ctx.day - 1 = d := by omega
              rw [hdm, hp1] at hcf
              exact Bool.noConfusion hcf
          · rw [if_neg hd1] at hq1
            exact (hroom p hp q hq hpq d).2 ⟨hp1, hq1⟩
    · intro s hs hshift
      rw [heq, hasShift_push, if_pos rfl] at hshift
      show (cand.id :: st.assignedToday).contains s = true
      rcases (Bool.or_eq_true _ _).mp hshift with ho | he
      · have hin := hdl s hs ho
        rw [List.contains_cons, hin]
        rw [Bool.or_true]
      · rw [hrec] at he
        have he2 : s = cand.id := (beq_iff_eq.mp he).symm
        rw [List.contains_cons, beq_iff_eq.mpr he2]
        rw [Bool.true_or]

theorem foldDays_room (sch : Scheduler) (orc : Oracle)
    (hnd : (sch.staff.map (fun s => s.id)).Nodup)
    (hne : ∀ p ∈ sch.staff, p.id ≠ "EMPTY") :
    ∀ (days : List Int), days.Nodup →
    ∀ sim : SimState, (∀ d ∈ days, sim.asg d = []) → RoomInv sch sim.asg →
      RoomInv sch ((days.foldl
        (fun s d => processDay sch orc.jitter (orc.shuffle d sch.services) s d)
        sim).asg) := by
  intro days
  induction days with
  | nil => intro _ sim _ h; exact h
  | cons d rest ih =>
    intro hnodup sim hempty hroom
    rw [List.nodup_cons] at hnodup
    rw [List.foldl_cons]
    have hdl : DayLocal d (⟨sim, [], false⟩ : DayState) := by
      intro s hs hshift
      unfold hasShiftOnDay at hshift
      rw [hempty d (by simp)] at hshift
      cases hshift
    have hjoint := @reaches_preserve (mkDayCtx sch orc.jitter d)
      (fun stx => RoomInv sch stx.sim.asg ∧ DayLocal d stx)
      (fun _ _ hab => dayStep_room hnd hne hab) _ _
      (dayEndState_reaches sch orc.jitter (orc.shuffle d sch.services) sim d)
      ⟨hroom, hdl⟩
    apply ih hnodup.2
    · intro e he
      rw [processDay_asg_ne sch orc.jitter (orc.shuffle d sch.services) sim d e
        (fun hc => hnodup.1 (hc ▸ he))]
      exact hempty e (by simp [he])
    · exact hjoint.1

theorem finalSim_room (sch : Scheduler) (orc : Oracle)
    (hnd : (sch.staff.map (fun s => s.id)).Nodup)
    (hne : ∀ p ∈ sch.staff, p.id ≠ "EMPTY")
    (hdays : (effectiveDayOrder sch orc).Nodup) :
    RoomInv sch (finalSim sch orc).asg := by
  apply foldDays_room sch orc hnd hne (effectiveDayOrder sch orc) hdays initSimState
  · intro d _
    rfl
  · intro p _ q _ _ d
    constructor
    · rintro ⟨hc, -⟩
      cases hc
    · rintro ⟨hc, -⟩
      cases hc

theorem runSim_room (sch : Scheduler) (orc : Oracle)
    (hnd : (sch.staff.map (fun s => s.id)).Nodup)
    (hne : ∀ p ∈ sch.staff, p.id ≠ "EMPTY")
    (hdays : (effectiveDayOrder sch orc).Nodup) :
    ∀ p ∈ sch.staff, ∀ q ∈ sch.staff, q.id ∈ sch.roommatesOf p.id →
    ∀ d1 ∈ (sch.runSimulation orc).schedule, ∀ d2 ∈ (sch.runSimulation orc).schedule,
      (d1.day = d2.day ∨ d2.day = d1.day + 1 ∨ d1.day = d2.day + 1) →
      (d1.assignments.any (fun a => a.staffId == p.id) &&
       d2.assignments.any (fun a => a.staffId == q.id)) = false := by
  intro p hp q hq hpq d1 h1 d2 h2 hrel
  obtain ⟨i, hi, hdi, hai, -⟩ := runSim_schedule_mem h1
  obtain ⟨j, hj, hdj, haj, -⟩ := runSim_schedule_mem h2
  rw [hai, haj]
  have hroom := finalSim_room sch orc hnd hne hdays
  cases h1b : ((finalSim sch orc).asg ((i : Int) + 1)).any (fun a => a.staffId == p.id) with
  | false => rfl
  | true =>
    cases h2b : ((finalSim sch orc).asg ((j : Int) + 1)).any (fun a => a.staffId == q.id) with
    | false => rfl
    | true =>
      exfalso
      rw [hdi, hdj] at hrel
      rcases hrel with he | he | he
      · have hij : (i : Int) + 1 = (j : Int) + 1 := he
        rw [hij] at h1b
        exact (hroom p hp q hq hpq ((j : Int) + 1)).1 ⟨h1b, h2b⟩
      · have hij : (j : Int) + 1 = (i : Int) + 1 + 1 := he
        rw [hij] at h2b
        exact (hroom p hp q hq hpq ((i : Int) + 1)).2 ⟨h1b, h2b⟩
      · have hij : (i : Int) + 1 = (j : Int) + 1 + 1 := he
        rw [hij] at h1b
        have hsym := roommatesOf_symm hnd hp hq hpq
        exact (hroom q hq p hp hsym ((j : Int) + 1)).2 ⟨h2b, h1b⟩

/-! Counting lemmas for the capacity analysis (claim C4). -/

theorem countP_push (l : List ShiftAssignment) (rec : ShiftAssignment) (sid : String) :
    (l ++ [rec]).countP (fun a => a.serviceId == sid) =
      l.countP (fun a => a.serviceId == sid) + (if rec.serviceId = sid then 1 else 0) := by
  rw [List.countP_append]
  congr 1
  by_cases h : rec.serviceId = sid <;> simp [List.countP_cons, h]

theorem dayCount_assign (ctx : DayCtx) (cand : Staff) (sv : Service)
    (st : DayState) (sid : String) :
    dayCount (ctx.assign cand sv st).sim ctx.day sid =
      dayCount st.sim ctx.day sid + (if sv.id = sid then 1 else 0) := by
  show (List.countP (fun a => a.serviceId == sid)
      (if ctx.day = ctx.day then st.sim.asg ctx.day ++ [mkAssignment cand sv]
       else st.sim.asg ctx.day)) = _
  rw [if_pos rfl, countP_push]
  rfl

theorem dayCount_sentinel (ctx : DayCtx) (sv : Service) (st : DayState) (sid : String) :
    dayCount (pushSentinel ctx.day sv st).sim ctx.day sid =
      dayCount st.sim ctx.day sid + (if sv.id = sid then 1 else 0) := by
  show (List.countP (fun a => a.serviceId == sid)
      (if ctx.day = ctx.day then st.sim.asg ctx.day ++ [emptyAssignment sv]
       else st.sim.asg ctx.day)) = _
  rw [if_pos rfl, countP_push]
  rfl

theorem dayCount_bump (st : DayState) (day : Int) (sid : String) :
    dayCount (bumpRng st).sim day sid = dayCount st.sim day sid := rfl

theorem dayCount_phase2Sentinel (ctx : DayCtx) (sv : Service) (st : DayState) (sid : String) :
    dayCount (phase2Sentinel ctx sv st).sim ctx.day sid ≤
      dayCount st.sim ctx.day sid + (if sv.id = sid then 1 else 0) := by
  unfold phase2Sentinel
  split
  · rw [dayCount_sentinel]
  · exact Nat.le_add_right _ _

theorem dayCount_phase2Sentinel_other (ctx : DayCtx) (sv : Service) (st : DayState)
    (sid : String) (hne : sv.id ≠ sid) :
    dayCount (phase2Sentinel ctx sv st).sim ctx.day sid = dayCount st.sim ctx.day sid := by
  unfold phase2Sentinel
  split
  · rw [dayCount_sentinel]
    rw [if_neg hne]
    rfl
  · rfl

/-! The day's single reserved specialty (claim C4's amendment). -/

theorem singleSpecialty_target {sch : Scheduler} {day : Int} (h : SingleSpecialty sch day) :
    ∃ t0 : String, t0 ≠ "" ∧ ∀ c ∈ sch.config.unitConstraints,
      c.allowedDays.contains (sch.dow day) = true →
      ∀ t, specialtyTarget c.unit = some t → t = t0 := by
  by_cases ht : sch.config.unitConstraints.any (fun c =>
      c.allowedDays.contains (sch.dow day) && c.unit == "Transplantasyon") = true
  · refine ⟨"transplant", by simp, ?_⟩
    intro c hc hcd t hsp
    unfold specialtyTarget at hsp
    split at hsp
    · exact (Option.some.injEq _ _ ▸ hsp).symm ▸ rfl
    · split at hsp
      · next hyb =>
        exfalso
        apply h
        refine ⟨ht, ?_⟩
        apply List.any_eq_true.mpr
        exact ⟨c, hc, by rw [hcd, hyb]; rfl⟩
      · cases hsp
  · refine ⟨"wound", by simp, ?_⟩
    intro c hc hcd t hsp
    unfold specialtyTarget at hsp
    split at hsp
    · next htr =>
      exfalso
      apply ht
      apply List.any_eq_true.mpr
      exact ⟨c, hc, by rw [hcd, htr]; rfl⟩
    · split at hsp
      · exact (Option.some.injEq _ _ ▸ hsp).symm ▸ rfl
      · cases hsp

theorem specialtyTarget_ne_empty {u t : String} (h : specialtyTarget u = some t) : t ≠ "" := by
  unfold specialtyTarget at h
  split at h
  · cases h
    simp
  · split at h
    · cases h
      simp
    · cases h

/-! Phase 0 capacity analysis: under a single reserved specialty, Phase 0
places at most one specialist, into a positive-minimum service. -/

theorem tryP0_inv {ctx : DayCtx} {t0 : String} (ht0 : t0 ≠ "") :
    ∀ (l : List Service), (∀ sv ∈ l, sv ∈ ctx.sch.services ∧ 0 < sv.minDailyCount) →
    ∀ st : DayState, st.sim.asg ctx.day = [] →
      P0Inv ctx.sch ctx.day t0 (tryServicesPhase0 ctx t0 l st) := by
  intro l
  induction l with
  | nil => intro _ st h0; exact Or.inl h0
  | cons sv rest ih =>
    intro hl st h0
    rcases h : ctx.find sv { restrictSpecialty := some t0 } st with ⟨copt, st1⟩
    cases copt with
    | some cand =>
      simp only [tryServicesPhase0, h]
      obtain ⟨hst1, hfind⟩ := find_eq h
      obtain ⟨hmem, hok⟩ := findBestCandidate_some hfind
      obtain ⟨-, -, -, -, -, -, -, hspec, -⟩ := candidateOk_spec hok
      right
      refine ⟨sv, (hl sv (by simp)).1, (hl sv (by simp)).2, cand, hmem, hspec t0 rfl ht0, ?_⟩
      subst hst1
      show (if ctx.day = ctx.day then st.sim.asg ctx.day ++ [mkAssignment cand sv]
        else st.sim.asg ctx.day) = _
      rw [if_pos rfl, h0]
      rfl
    | none =>
      simp only [tryServicesPhase0, h]
      obtain ⟨hst1, -⟩ := find_eq h
      subst hst1
      exact ih (fun sv2 h2 => hl sv2 (by simp [h2])) (bumpRng st) h0

theorem eligibleServicesP0_mem {sch : Scheduler} {sv : Service}
    (h : sv ∈ eligibleServicesP0 sch) : sv ∈ sch.services ∧ 0 < sv.minDailyCount := by
  unfold eligibleServicesP0 at h
  rw [mem_sortedBy] at h
  have h2 := List.mem_filter.mp h
  exact ⟨h2.1, by simpa using h2.2⟩

theorem phase0Constraint_inv {ctx : DayCtx} {t0 : String} (ht0 : t0 ≠ "")
    (hnd : (ctx.sch.staff.map (fun s => s.id)).Nodup)
    {c : UnitConstraint}
    (htgt : c.allowedDays.contains (ctx.sch.dow ctx.day) = true →
      ∀ t, specialtyTarget c.unit = some t → t = t0)
    {st : DayState} (hi : P0Inv ctx.sch ctx.day t0 st) :
    P0Inv ctx.sch ctx.day t0 (phase0Constraint ctx st c) := by
  unfold phase0Constraint
  by_cases hcd : c.allowedDays.contains (ctx.sch.dow ctx.day) = true
  · rw [if_pos hcd]
    rcases hsp : specialtyTarget c.unit with _ | t
    · exact hi
    · have htt : t = t0 := htgt hcd t hsp
      subst htt
      show P0Inv ctx.sch ctx.day t
        (if alreadyAssignedSpecialty ctx.sch ctx.day st t = true then st
         else tryServicesPhase0 ctx t (eligibleServicesP0 ctx.sch) st)
      by_cases hal : alreadyAssignedSpecialty ctx.sch ctx.day st t = true
      · rw [if_pos hal]
        exact hi
      · rw [if_neg hal]
        rcases hi with h0 | ⟨sv, hsv, hmin, c0, hc0, hc0sp, hasg⟩
        · exact tryP0_inv ht0 (eligibleServicesP0 ctx.sch)
            (fun sv2 h2 => eligibleServicesP0_mem h2) st h0
        · exfalso
          apply hal
          unfold alreadyAssignedSpecialty
          rw [hasg]
          apply List.any_eq_true.mpr
          refine ⟨mkAssignment c0 sv, by simp, ?_⟩
          have hfind : ctx.sch.staff.find?
              (fun s => s.id == (mkAssignment c0 sv).staffId) = some c0 :=
            find_nodup_id hnd hc0
          rw [hfind]
          show (c0.specialty == some t) = true
          exact beq_iff_eq.mpr hc0sp
  · rw [if_neg hcd]
    exact hi

theorem phase0_inv {ctx : DayCtx} {t0 : String} (ht0 : t0 ≠ "")
    (hnd : (ctx.sch.staff.map (fun s => s.id)).Nodup)
    (htgt : ∀ c ∈ ctx.sch.config.unitConstraints,
      c.allowedDays.contains (ctx.sch.dow ctx.day) = true →
      ∀ t, specialtyTarget c.unit = some t → t = t0)
    {st : DayState} (h0 : st.sim.asg ctx.day = []) :
    P0Inv ctx.sch ctx.day t0 (phase0 ctx st) := by
  unfold phase0
  have hgen : ∀ (cs : List UnitConstraint), (∀ c ∈ cs, c ∈ ctx.sch.config.unitConstraints) →
      ∀ st2, P0Inv ctx.sch ctx.day t0 st2 →
      P0Inv ctx.sch ctx.day t0 (cs.foldl (phase0Constraint ctx) st2) := by
    intro cs
    induction cs with
    | nil => intro _ st2 h; exact h
    | cons c rest ih =>
      intro hcs st2 h
      rw [List.foldl_cons]
      exact ih (fun c2 h2 => hcs c2 (by simp [h2]))
        (phase0Constraint ctx st2 c)
        (phase0Constraint_inv ht0 hnd (htgt c (hcs c (by simp))) h)
  exact hgen ctx.sch.config.unitConstraints (fun c h => h) st (Or.inl h0)

theorem P0Inv_countLeMin {sch : Scheduler} {day : Int} {t0 : String} {st : DayState}
    (hsvnd : (sch.services.map (fun s => s.id)).Nodup)
    (h : P0Inv sch day t0 st) : CountLeMin sch day st := by
  intro s hs
  rcases h with h0 | ⟨sv, hsv, hmin, c0, -, -, hasg⟩
  · unfold dayCount
    rw [h0]
    exact Nat.zero_le _
  · unfold dayCount
    rw [hasg]
    by_cases hid : sv.id = s.id
    · have hssv : s = sv := List.inj_on_of_nodup_map hsvnd hs hsv hid.symm
      have hcnt : List.countP (fun a => a.serviceId == s.id) [mkAssignment c0 sv] = 1 := by
        have : (mkAssignment c0 sv).serviceId = s.id := hid
        simp [List.countP_cons, this]
      rw [hcnt, hssv]
      exact hmin
    · have hcnt : List.countP (fun a => a.serviceId == s.id) [mkAssignment c0 sv] = 0 := by
        have : (mkAssignment c0 sv).serviceId ≠ s.id := hid
        simp [List.countP_cons, this]
      rw [hcnt]
      exact Nat.zero_le _

/-! Phases 1, 2 and 3 respect the capacity bounds they check. -/

theorem services_id_inj {sch : Scheduler}
    (hsvnd : (sch.services.map (fun s => s.id)).Nodup) {s sv : Service}
    (hs : s ∈ sch.services) (hsv : sv ∈ sch.services) (h : sv.id = s.id) : s = sv :=
  List.inj_on_of_nodup_map hsvnd hs hsv h.symm

theorem phase1Go_countLeMin {ctx : DayCtx}
    (hsvnd : (ctx.sch.services.map (fun s => s.id)).Nodup) :
    ∀ (l : List Service), (∀ sv ∈ l, sv ∈ ctx.sch.services) →
    ∀ st : DayState, CountLeMin ctx.sch ctx.day st →
      CountLeMin ctx.sch ctx.day (phase1Go ctx l st) := by
  intro l
  induction l with
  | nil => intro _ st h; exact h
  | cons sv rest ih =>
    intro hl st h
    simp only [phase1Go]
    by_cases hsen : st.seniorAssigned = true
    · rw [if_pos hsen]
      exact h
    · rw [if_neg hsen]
      by_cases hz : (sv.minDailyCount == 0) = true
      · rw [if_pos hz]
        exact ih (fun s2 h2 => hl s2 (by simp [h2])) st h
      · rw [if_neg hz]
        by_cases hcnt : sv.minDailyCount ≤
            (st.sim.asg ctx.day).countP (fun a => a.serviceId == sv.id)
        · rw [if_pos hcnt]
          exact ih (fun s2 h2 => hl s2 (by simp [h2])) st h
        · rw [if_neg hcnt]
          rcases hf : ctx.find sv { restrictRole := some 1 } st with ⟨copt, st1⟩
          cases copt with
          | some cand =>
            simp only [hf]
            apply ih (fun s2 h2 => hl s2 (by simp [h2]))
            intro s hs
            rw [dayCount_assign]
            obtain ⟨hst1, -⟩ := find_eq hf
            subst hst1
            by_cases hid : sv.id = s.id
            · rw [if_pos hid]
              have hssv : s = sv := services_id_inj hsvnd hs (hl sv (by simp)) hid
              have hlt : dayCount st.sim ctx.day s.id < sv.minDailyCount := by
                rw [hssv]
                exact Nat.lt_of_not_le hcnt
              rw [hssv] at *
              show dayCount (bumpRng st).sim ctx.day sv.id + 1 ≤ sv.minDailyCount
              rw [dayCount_bump]
              omega
            · rw [if_neg hid]
              show dayCount (bumpRng st).sim ctx.day s.id + 0 ≤ s.minDailyCount
              rw [dayCount_bump]
              simpa using h s hs
          | none =>
            simp only [hf]
            apply ih (fun s2 h2 => hl s2 (by simp [h2]))
            obtain ⟨hst1, -⟩ := find_eq hf
            subst hst1
            intro s hs
            rw [dayCount_bump]
            exact h s hs

theorem phase1_countLeMin {ctx : DayCtx}
    (hsvnd : (ctx.sch.services.map (fun s => s.id)).Nodup)
    {shuffle : List Service} (hshuffle : ∀ sv ∈ shuffle, sv ∈ ctx.sch.services)
    {st : DayState} (h : CountLeMin ctx.sch ctx.day st) :
    CountLeMin ctx.sch ctx.day (phase1 ctx shuffle st) := by
  unfold phase1
  split
  · exact h
  · exact phase1Go_countLeMin hsvnd shuffle hshuffle st h

theorem phase2Slot_count_other (ctx : DayCtx) (sv : Service) (sid : String)
    (hne : sv.id ≠ sid) :
    ∀ (n : Nat) (st : DayState) (csc : Nat),
      dayCount (phase2Slot ctx sv n st csc).sim ctx.day sid =
        dayCount st.sim ctx.day sid := by
  intro n
  induction n with
  | zero => intro st csc; rfl
  | succ n ih =>
    intro st csc
    rcases h : ctx.find sv { excludeRole := excludeSenior st } st with ⟨copt, st1⟩
    obtain ⟨hst1, -⟩ := find_eq h
    subst hst1
    cases copt with
    | some cand =>
      simp only [phase2Slot, h]
      rw [ih, dayCount_assign, if_neg hne, dayCount_bump]
      rfl
    | none =>
      simp only [phase2Slot, h]
      by_cases hc : csc < sv.minDailyCount
      · rw [if_pos hc]
        rcases h2 : ctx.find sv
            { desperate := true, excludeRole := excludeSenior (bumpRng st) } (bumpRng st)
          with ⟨copt2, st2⟩
        obtain ⟨hst2, -⟩ := find_eq h2
        subst hst2
        cases copt2 with
        | some cand =>
          simp only [h2]
          rw [ih, dayCount_assign, if_neg hne, dayCount_bump, dayCount_bump]
          rfl
        | none =>
          simp only [h2]
          rw [ih, dayCount_phase2Sentinel_other ctx sv _ sid hne,
            dayCount_bump, dayCount_bump]
      · rw [if_neg hc]
        rw [ih, dayCount_phase2Sentinel_other ctx sv _ sid hne, dayCount_bump]

theorem phase2Slot_count_self (ctx : DayCtx) (sv : Service) :
    ∀ (n : Nat) (st : DayState) (csc : Nat),
      dayCount (phase2Slot ctx sv n st csc).sim ctx.day sv.id ≤
        dayCount st.sim ctx.day sv.id + n := by
  intro n
  induction n with
  | zero => intro st csc; exact Nat.le_add_right _ _
  | succ n ih =>
    intro st csc
    rcases h : ctx.find sv { excludeRole := excludeSenior st } st with ⟨copt, st1⟩
    obtain ⟨hst1, -⟩ := find_eq h
    subst hst1
    cases copt with
    | some cand =>
      simp only [phase2Slot, h]
      have h1 := ih (ctx.assign cand sv (bumpRng st)) (csc + 1)
      rw [dayCount_assign, if_pos rfl, dayCount_bump] at h1
      omega
    | none =>
      simp only [phase2Slot, h]
      by_cases hc : csc < sv.minDailyCount
      · rw [if_pos hc]
        rcases h2 : ctx.find sv
            { desperate := true, excludeRole := excludeSenior (bumpRng st) } (bumpRng st)
          with ⟨copt2, st2⟩
        obtain ⟨hst2, -⟩ := find_eq h2
        subst hst2
        cases copt2 with
        | some cand =>
          simp only [h2]
          have h1 := ih (ctx.assign cand sv (bumpRng (bumpRng st))) (csc + 1)
          rw [dayCount_assign, if_pos rfl, dayCount_bump, dayCount_bump] at h1
          omega
        | none =>
          simp only [h2]
          have h1 := ih (phase2Sentinel ctx sv (bumpRng (bumpRng st))) csc
          have h2b := dayCount_phase2Sentinel ctx sv (bumpRng (bumpRng st)) sv.id
          rw [if_pos rfl] at h2b
          rw [dayCount_bump, dayCount_bump] at h2b
          omega
      · rw [if_neg hc]
        have h1 := ih (phase2Sentinel ctx sv (bumpRng st)) csc
        have h2b := dayCount_phase2Sentinel ctx sv (bumpRng st) sv.id
        rw [if_pos rfl] at h2b
        rw [dayCount_bump] at h2b
        omega

theorem phase2Service_countLeMin {ctx : DayCtx}
    (hsvnd : (ctx.sch.services.map (fun s => s.id)).Nodup)
    {sv : Service} (hsv : sv ∈ ctx.sch.services)
    {st : DayState} (h : CountLeMin ctx.sch ctx.day st) :
    CountLeMin ctx.sch ctx.day (phase2Service ctx st sv) := by
  intro s hs
  by_cases hid : sv.id = s.id
  · have hssv : s = sv := services_id_inj hsvnd hs hsv hid
    rw [hssv]
    show dayCount (phase2Slot ctx sv
        (sv.minDailyCount - List.countP (fun a => a.serviceId == sv.id) (st.sim.asg ctx.day))
        st (List.countP (fun a => a.serviceId == sv.id) (st.sim.asg ctx.day))).sim
      ctx.day sv.id ≤ sv.minDailyCount
    have hc0 : dayCount st.sim ctx.day sv.id ≤ sv.minDailyCount := h sv hsv
    have hb := phase2Slot_count_self ctx sv
      (sv.minDailyCount - List.countP (fun a => a.serviceId == sv.id) (st.sim.asg ctx.day))
      st (List.countP (fun a => a.serviceId == sv.id) (st.sim.asg ctx.day))
    have hcc : List.countP (fun a => a.serviceId == sv.id) (st.sim.asg ctx.day) =
        dayCount st.sim ctx.day sv.id := rfl
    omega
  · show dayCount (phase2Slot ctx sv
        (sv.minDailyCount - List.countP (fun a => a.serviceId == sv.id) (st.sim.asg ctx.day))
        st (List.countP (fun a => a.serviceId == sv.id) (st.sim.asg ctx.day))).sim
      ctx.day s.id ≤ s.minDailyCount
    rw [phase2Slot_count_other ctx sv s.id hid]
    exact h s hs

theorem phase2_countLeMin {ctx : DayCtx}
    (hsvnd : (ctx.sch.services.map (fun s => s.id)).Nodup)
    {st : DayState} (h : CountLeMin ctx.sch ctx.day st) :
    CountLeMin ctx.sch ctx.day (phase2 ctx st) := by
  unfold phase2
  have hgen : ∀ (l : List Service), (∀ sv ∈ l, sv ∈ ctx.sch.services) →
      ∀ st2, CountLeMin ctx.sch ctx.day st2 →
      CountLeMin ctx.sch ctx.day (l.foldl (phase2Service ctx) st2) := by
    intro l
    induction l with
    | nil => intro _ st2 h2; exact h2
    | cons sv rest ih =>
      intro hl st2 h2
      rw [List.foldl_cons]
      exact ih (fun s2 hs2 => hl s2 (by simp [hs2]))
        (phase2Service ctx st2 sv)
        (phase2Service_countLeMin hsvnd (hl sv (by simp)) h2)
  apply hgen
  · intro sv hsv
    unfold dailyServicesSorted at hsv
    rw [mem_sortedBy] at hsv
    exact hsv
  · exact h

/-! Phase 3 pass analysis. -/

theorem phase3Try_false_state (ctx : DayCtx) :
    ∀ (l : List Service) (st : DayState), (phase3Try ctx l st).2 = false →
      (phase3Try ctx l st).1.sim.asg = st.sim.asg ∧
      (phase3Try ctx l st).1.sim.stats = st.sim.stats ∧
      (phase3Try ctx l st).1.assignedToday = st.assignedToday ∧
      (phase3Try ctx l st).1.seniorAssigned = st.seniorAssigned := by
  intro l
  induction l with
  | nil => intro st _; exact ⟨rfl, rfl, rfl, rfl⟩
  | cons sv rest ih =>
    intro st hf
    rcases h : ctx.find sv { excludeRole := excludeSenior st } st with ⟨copt, st1⟩
    obtain ⟨hst1, -⟩ := find_eq h
    subst hst1
    cases copt with
    | some cand =>
      simp only [phase3Try, h] at hf
      cases hf
    | none =>
      rcases h2 : ctx.find sv
          { desperate := true, excludeRole := excludeSenior (bumpRng st) } (bumpRng st)
        with ⟨copt2, st2⟩
      obtain ⟨hst2, -⟩ := find_eq h2
      subst hst2
      cases copt2 with
      | some cand =>
        simp only [phase3Try, h, h2] at hf
        cases hf
      | none =>
        simp only [phase3Try, h, h2] at hf ⊢
        exact ih (bumpRng (bumpRng st)) hf

theorem phase3Try_count (ctx : DayCtx) :
    ∀ (l : List Service) (st : DayState), (phase3Try ctx l st).2 = true →
      ∃ sv ∈ l, ∀ sid, dayCount (phase3Try ctx l st).1.sim ctx.day sid =
        dayCount st.sim ctx.day sid + (if sv.id = sid then 1 else 0) := by
  intro l
  induction l with
  | nil => intro st hf; cases hf
  | cons sv rest ih =>
    intro st hf0
    rcases h : ctx.find sv { excludeRole := excludeSenior st } st with ⟨copt, st1⟩
    obtain ⟨hst1, -⟩ := find_eq h
    subst hst1
    cases copt with
    | some cand =>
      refine ⟨sv, by simp, fun sid => ?_⟩
      simp only [phase3Try, h]
      rw [dayCount_assign, dayCount_bump]
    | none =>
      rcases h2 : ctx.find sv
          { desperate := true, excludeRole := excludeSenior (bumpRng st) } (bumpRng st)
        with ⟨copt2, st2⟩
      obtain ⟨hst2, -⟩ := find_eq h2
      subst hst2
      cases copt2 with
      | some cand =>
        refine ⟨sv, by simp, fun sid => ?_⟩
        simp only [phase3Try, h, h2]
        rw [dayCount_assign, dayCount_bump, dayCount_bump]
      | none =>
        have hf3 : (phase3Try ctx rest (bumpRng (bumpRng st))).2 = true := by
          simp only [phase3Try, h, h2] at hf0
          exact hf0
        obtain ⟨sv2, hsv2, hcnt⟩ := ih (bumpRng (bumpRng st)) hf3
        refine ⟨sv2, by simp [hsv2], fun sid => ?_⟩
        simp only [phase3Try, h, h2]
        rw [hcnt sid, dayCount_bump, dayCount_bump]

theorem phase3Try_snd_congr (ctx : DayCtx) :
    ∀ (l : List Service) (st st2 : DayState),
      st2.sim.asg = st.sim.asg → st2.sim.stats = st.sim.stats →
      st2.assignedToday = st.assignedToday → st2.seniorAssigned = st.seniorAssigned →
      (phase3Try ctx l st2).2 = (phase3Try ctx l st).2 := by
  intro l
  induction l with
  | nil => intro st st2 _ _ _ _; rfl
  | cons sv rest ih =>
    intro st st2 ha hs hat hsen
    have hex : excludeSenior st2 = excludeSenior st := by
      unfold excludeSenior
      rw [hsen]
    have hfilt : ∀ opts,
        ctx.sch.staff.filter (candidateOk ctx.sch sv ctx.day st2.assignedToday
          st2.sim.asg st2.sim.stats ctx.isWeekend ctx.isSat ctx.isSun opts) =
        ctx.sch.staff.filter (candidateOk ctx.sch sv ctx.day st.assignedToday
          st.sim.asg st.sim.stats ctx.isWeekend ctx.isSat ctx.isSun opts) := by
      intro opts
      rw [ha, hs, hat]
    rcases h : ctx.find sv { excludeRole := excludeSenior st } st with ⟨copt, st1⟩
    rcases h2 : ctx.find sv { excludeRole := excludeSenior st2 } st2 with ⟨copt2, st1b⟩
    obtain ⟨hst1, hf1⟩ := find_eq h
    obtain ⟨hst1b, hf2⟩ := find_eq h2
    subst hst1
    subst hst1b
    have hnone : copt2 = none ↔ copt = none := by
      constructor
      · intro hcn
        rw [hcn] at hf2
        rw [← hf1]
        rw [findBestCandidate_none_iff]
        rw [hex] at hf2
        rw [findBestCandidate_none_iff] at hf2
        rw [← hfilt]
        exact hf2
      · intro hcn
        rw [hcn] at hf1
        rw [← hf2]
        rw [hex]
        rw [findBestCandidate_none_iff]
        rw [findBestCandidate_none_iff] at hf1
        rw [hfilt]
        exact hf1
    cases copt with
    | some cand =>
      have hcopt2 : copt2 ≠ none := by
        intro hcn
        cases (hnone.mp hcn)
      rcases copt2 with _ | cand2
      · exact absurd rfl hcopt2
      · simp only [phase3Try, h, h2]
    | none =>
      have hcopt2 : copt2 = none := hnone.mpr rfl
      subst hcopt2
      have hex2 : excludeSenior (bumpRng st2) = excludeSenior (bumpRng st) := by
        unfold excludeSenior
        show (if st2.seniorAssigned then some 1 else none) = _
        rw [hsen]
        rfl
      have hfilt2 : ∀ opts,
          ctx.sch.staff.filter (candidateOk ctx.sch sv ctx.day (bumpRng st2).assignedToday
            (bumpRng st2).sim.asg (bumpRng st2).sim.stats ctx.isWeekend ctx.isSat ctx.isSun opts) =
          ctx.sch.staff.filter (candidateOk ctx.sch sv ctx.day (bumpRng st).assignedToday
            (bumpRng st).sim.asg (bumpRng st).sim.stats ctx.isWeekend ctx.isSat ctx.isSun opts) :=
        hfilt
      rcases h3 : ctx.find sv
          { desperate := true, excludeRole := excludeSenior (bumpRng st) } (bumpRng st)
        with ⟨copt3, st3⟩
      rcases h4 : ctx.find sv
          { desperate := true, excludeRole := excludeSenior (bumpRng st2) } (bumpRng st2)
        with ⟨copt4, st4⟩
      obtain ⟨hst3, hf3⟩ := find_eq h3
      obtain ⟨hst4, hf4⟩ := find_eq h4
      subst hst3
      subst hst4
      have hnone2 : copt4 = none ↔ copt3 = none := by
        constructor
        · intro hcn
          rw [hcn] at hf4
          rw [← hf3]
          rw [findBestCandidate_none_iff]
          rw [hex2] at hf4
          rw [findBestCandidate_none_iff] at hf4
          rw [← hfilt2]
          exact hf4
        · intro hcn
          rw [hcn] at hf3
          rw [← hf4]
          rw [hex2]
          rw [findBestCandidate_none_iff]
          rw [findBestCandidate_none_iff] at hf3
          rw [hfilt2]
          exact hf3
      cases copt3 with
      | some cand3 =>
        have hcopt4 : copt4 ≠ none := fun hcn => by cases (hnone2.mp hcn)
        rcases copt4 with _ | cand4
        · exact absurd rfl hcopt4
        · simp only [phase3Try, h, h2, h3, h4]
      | none =>
        have hcopt4 : copt4 = none := hnone2.mpr rfl
        subst hcopt4
        simp only [phase3Try, h, h2, h3, h4]
        exact ih (bumpRng (bumpRng st)) (bumpRng (bumpRng st2)) ha hs hat hsen

theorem sortedFlexible_mem {sch : Scheduler} {day : Int} {st : DayState} {sv : Service}
    (h : sv ∈ sortedFlexible sch day st) :
    sv ∈ sch.services ∧ dayCount st.sim day sv.id < sv.maxDailyCount := by
  unfold sortedFlexible at h
  rw [mem_sortedBy] at h
  have h2 := List.mem_filter.mp h
  exact ⟨h2.1, by simpa using h2.2⟩

theorem phase3Loop_countLeMax {ctx : DayCtx}
    (hsvnd : (ctx.sch.services.map (fun s => s.id)).Nodup) (target : Nat) :
    ∀ (fuel : Nat) (st : DayState) (total : Nat),
      CountLeMax ctx.sch ctx.day st →
      CountLeMax ctx.sch ctx.day (phase3Loop ctx target fuel st total).1 := by
  intro fuel
  induction fuel with
  | zero => intro st total h; exact h
  | succ fuel ih =>
    intro st total h
    simp only [phase3Loop]
    by_cases hlt : total < target
    · rw [if_pos hlt]
      by_cases he : (flexibleServices ctx.sch ctx.day st).isEmpty = true
      · rw [if_pos he]
        exact h
      · rw [if_neg he]
        rcases htry : phase3Try ctx (sortedFlexible ctx.sch ctx.day st) st with ⟨st1, filled⟩
        cases filled with
        | true =>
          rcases hloop : phase3Loop ctx target fuel st1 (total + 1) with ⟨st2, t2, i⟩
          simp only [hloop]
          have hc1 : CountLeMax ctx.sch ctx.day st1 := by
            have hcnt := phase3Try_count ctx (sortedFlexible ctx.sch ctx.day st) st
              (by rw [htry])
            obtain ⟨sv, hsvmem, hcnt2⟩ := hcnt
            obtain ⟨hsvsvc, hsvlt⟩ := sortedFlexible_mem hsvmem
            intro s hs
            have hc3 := hcnt2 s.id
            rw [htry] at hc3
            rw [hc3]
            by_cases hid : sv.id = s.id
            · have hssv : s = sv := services_id_inj hsvnd hs hsvsvc hid
              rw [if_pos hid]
              rw [hssv]
              omega
            · rw [if_neg hid]
              have := h s hs
              omega
          have hres := ih st1 (total + 1) hc1
          rw [hloop] at hres
          exact hres
        | false =>
          intro s hs
          have hstate := phase3Try_false_state ctx (sortedFlexible ctx.sch ctx.day st) st
            (by rw [htry])
          rw [htry] at hstate
          have heq : dayCount st1.sim ctx.day s.id = dayCount st.sim ctx.day s.id := by
            unfold dayCount
            rw [hstate.1]
          rw [heq]
          exact h s hs
    · rw [if_neg hlt]
      exact h

theorem phase3_countLeMax {ctx : DayCtx}
    (hsvnd : (ctx.sch.services.map (fun s => s.id)).Nodup)
    {st : DayState} (h : CountLeMax ctx.sch ctx.day st) :
    CountLeMax ctx.sch ctx.day (phase3 ctx st) := by
  simp only [phase3]
  split
  · exact phase3Loop_countLeMax hsvnd _ 50 st _ h
  · exact h

theorem dayEndState_countLeMax (sch : Scheduler) (jp : Nat → String → Int)
    (shuffle : List Service) (sim : SimState) (day : Int)
    (hndStaff : (sch.staff.map (fun s => s.id)).Nodup)
    (hsvnd : (sch.services.map (fun s => s.id)).Nodup)
    (hminmax : ∀ s ∈ sch.services, s.minDailyCount ≤ s.maxDailyCount)
    (hshuffle : ∀ sv ∈ shuffle, sv ∈ sch.services)
    (hsingle : SingleSpecialty sch day)
    (h0 : sim.asg day = []) :
    CountLeMax sch day (dayEndState sch jp shuffle sim day) := by
  obtain ⟨t0, ht0, htgt⟩ := singleSpecialty_target hsingle
  have h1 : P0Inv sch day t0 (phase0 (mkDayCtx sch jp day) ⟨sim, [], false⟩) :=
    phase0_inv ht0 hndStaff htgt h0
  have h2 : CountLeMin sch day (phase0 (mkDayCtx sch jp day) ⟨sim, [], false⟩) :=
    P0Inv_countLeMin hsvnd h1
  have h3 : CountLeMin sch day
      (phase1 (mkDayCtx sch jp day) shuffle
        (phase0 (mkDayCtx sch jp day) ⟨sim, [], false⟩)) :=
    @phase1_countLeMin (mkDayCtx sch jp day) hsvnd shuffle hshuffle _ h2
  have h4 : CountLeMin sch day
      (phase2 (mkDayCtx sch jp day)
        (phase1 (mkDayCtx sch jp day) shuffle
          (phase0 (mkDayCtx sch jp day) ⟨sim, [], false⟩))) :=
    @phase2_countLeMin (mkDayCtx sch jp day) hsvnd _ h3
  have h5 : CountLeMax sch day
      (phase2 (mkDayCtx sch jp day)
        (phase1 (mkDayCtx sch jp day) shuffle
          (phase0 (mkDayCtx sch jp day) ⟨sim, [], false⟩))) := by
    intro s hs
    exact Nat.le_trans (h4 s hs) (hminmax s hs)
  exact @phase3_countLeMax (mkDayCtx sch jp day) hsvnd _ h5

theorem foldDays_count (sch : Scheduler) (orc : Oracle)
    (hndStaff : (sch.staff.map (fun s => s.id)).Nodup)
    (hsvnd : (sch.services.map (fun s => s.id)).Nodup)
    (hminmax : ∀ s ∈ sch.services, s.minDailyCount ≤ s.maxDailyCount)
    (hshuffle : ∀ d, ∀ sv ∈ orc.shuffle d sch.services, sv ∈ sch.services)
    (hsingle : ∀ d : Int, SingleSpecialty sch d) :
    ∀ (days : List Int), days.Nodup →
    ∀ sim : SimState, (∀ d ∈ days, sim.asg d = []) →
    (∀ (d : Int), ∀ s ∈ sch.services,
      (sim.asg d).countP (fun a => a.serviceId == s.id) ≤ s.maxDailyCount) →
    ∀ (d : Int), ∀ s ∈ sch.services,
      (((days.foldl
        (fun s2 d2 => processDay sch orc.jitter (orc.shuffle d2 sch.services) s2 d2)
        sim).asg d).countP (fun a => a.serviceId == s.id)) ≤ s.maxDailyCount := by
  intro days
  induction days with
  | nil => intro _ sim _ h; exact h
  | cons d0 rest ih =>
    intro hnodup sim hempty hcnt
    rw [List.nodup_cons] at hnodup
    rw [List.foldl_cons]
    apply ih hnodup.2
    · intro e he
      rw [processDay_asg_ne sch orc.jitter (orc.shuffle d0 sch.services) sim d0 e
        (fun hc => hnodup.1 (hc ▸ he))]
      exact hempty e (by simp [he])
    · intro d s hs
      by_cases hd : d = d0
      · subst hd
        have := dayEndState_countLeMax sch orc.jitter (orc.shuffle d sch.services) sim d
          hndStaff hsvnd hminmax (hshuffle d) (hsingle d) (hempty d (by simp))
        exact this s hs
      · rw [processDay_asg_ne sch orc.jitter (orc.shuffle d0 sch.services) sim d0 d hd]
        exact hcnt d s hs

theorem runSim_count (sch : Scheduler) (orc : Oracle)
    (hndStaff : (sch.staff.map (fun s => s.id)).Nodup)
    (hsvnd : (sch.services.map (fun s => s.id)).Nodup)
    (hminmax : ∀ s ∈ sch.services, s.minDailyCount ≤ s.maxDailyCount)
    (hshuffle : ∀ d, ∀ sv ∈ orc.shuffle d sch.services, sv ∈ sch.services)
    (hsingle : ∀ d : Int, SingleSpecialty sch d)
    (hdays : (effectiveDayOrder sch orc).Nodup) :
    ∀ ds ∈ (sch.runSimulation orc).schedule, ∀ s ∈ sch.services,
      ds.assignments.countP (fun a => a.serviceId == s.id) ≤ s.maxDailyCount := by
  intro ds hds s hs
  obtain ⟨i, hi, -, hai, -⟩ := runSim_schedule_mem hds
  rw [hai]
  exact foldDays_count sch orc hndStaff hsvnd hminmax hshuffle hsingle
    (effectiveDayOrder sch orc) hdays initSimState (fun _ _ => rfl)
    (fun _ _ _ => Nat.zero_le _) ((i : Int) + 1) s hs

theorem phase3Loop_stops (ctx : DayCtx) (target : Nat) :
    ∀ (fuel : Nat) (st : DayState) (total : Nat),
      target ≤ (phase3Loop ctx target fuel st total).2.1 ∨
      flexibleServices ctx.sch ctx.day (phase3Loop ctx target fuel st total).1 = [] ∨
      (phase3Try ctx
        (sortedFlexible ctx.sch ctx.day (phase3Loop ctx target fuel st total).1)
        (phase3Loop ctx target fuel st total).1).2 = false ∨
      (phase3Loop ctx target fuel st total).2.2 = fuel := by
  intro fuel
  induction fuel with
  | zero => intro st total; right; right; right; rfl
  | succ fuel ih =>
    intro st total
    simp only [phase3Loop]
    by_cases hlt : total < target
    · rw [if_pos hlt]
      by_cases he : (flexibleServices ctx.sch ctx.day st).isEmpty = true
      · rw [if_pos he]
        right; left
        show flexibleServices ctx.sch ctx.day st = []
        exact List.isEmpty_iff.mp he
      · rw [if_neg he]
        rcases htry : phase3Try ctx (sortedFlexible ctx.sch ctx.day st) st with ⟨st1, filled⟩
        cases filled with
        | true =>
          rcases hloop : phase3Loop ctx target fuel st1 (total + 1) with ⟨st2, t2, i⟩
          simp only [hloop]
          have hi := ih st1 (total + 1)
          rw [hloop] at hi
          rcases hi with h | h | h | h
          · left; exact h
          · right; left; exact h
          · right; right; left; exact h
          · right; right; right
            show i + 1 = fuel + 1
            have h2 : i = fuel := h
            omega
        | false =>
          right; right; left
          have hstate := phase3Try_false_state ctx (sortedFlexible ctx.sch ctx.day st) st
            (by rw [htry])
          rw [htry] at hstate
          obtain ⟨ha, hs, hat, hsen⟩ := hstate
          have hflex : sortedFlexible ctx.sch ctx.day st1 = sortedFlexible ctx.sch ctx.day st := by
            unfold sortedFlexible flexibleServices
            rw [ha]
          show (phase3Try ctx (sortedFlexible ctx.sch ctx.day st1) st1).2 = false
          rw [hflex]
          rw [phase3Try_snd_congr ctx (sortedFlexible ctx.sch ctx.day st) st st1
            ha hs hat hsen]
          rw [htry]
    · rw [if_neg hlt]
      left
      show target ≤ total
      omega

/-- Indexing a map over a range. -/
theorem get_map_range {α : Type} (n : Nat) (f : Nat → α) (i : Nat)
    (h : i < ((List.range n).map f).length) :
    ((List.range n).map f).get ⟨i, h⟩ = f i := by
  rw [List.get_eq_getElem, List.getElem_map, List.getElem_range]

/-! The claims. -/

/-- C1: in the final statistics of every ScheduleResult produced by
generate, each staff member's ordinary (service) shift count is at most
their quotaService and their weekend shift count at most their
weekendLimit; moreover the candidate filter never selects a staff member
whose service count has reached their quota, nor, on a weekend day, one
whose weekend count has reached their weekend limit, whatever the options
(desperate relaxation included). -/
theorem claim_C1 :
    (∀ (sch : Scheduler) (orcs : Nat → Oracle) (res : ScheduleResult),
      (sch.staff.map (fun s => s.id)).Nodup →
      sch.generate orcs = some res →
      ∀ e ∈ res.stats, ∀ p ∈ sch.staff, e.staffId = p.id →
        e.serviceShifts ≤ p.quotaService ∧ e.weekendShifts ≤ p.weekendLimit) ∧
    (∀ (sch : Scheduler) (sv : Service) (day : Int) (aT : List String)
      (mp : Int → List ShiftAssignment) (stats : String → StatRec)
      (w sa su fr : Bool) (opts : CandidateOptions) (jit : String → Int) (p : Staff),
      sch.findBestCandidate sv day aT mp stats w sa su fr opts jit = some p →
        (stats p.id).service < p.quotaService ∧
        (w = true → (stats p.id).weekend < p.weekendLimit)) := by
  constructor
  · intro sch orcs res hnd hgen e he p hp hep
    obtain ⟨⟨i, hi, hres⟩, -⟩ := generate_spec hgen
    subst hres
    exact runSim_quota sch (orcs i) hnd e he p hp hep
  · intro sch sv day aT mp stats w sa su fr opts jit p hf
    obtain ⟨-, hok⟩ := findBestCandidate_some hf
    obtain ⟨-, -, -, -, hq, hw, -, -, -⟩ := candidateOk_spec hok
    exact ⟨hq, hw⟩

/-- Witness for C1: the concrete one-staff February schedule. -/
theorem claim_C1_witness :
    (resW.stats.headI).serviceShifts ≤ staffA.quotaService ∧
    (resW.stats.headI).weekendShifts ≤ staffA.weekendLimit :=
  claim_C1.1 schW (fun _ => orcW) resW (by decide) rfl
    resW.stats.headI (List.mem_of_elem_eq_true (by rfl))
    staffA (List.mem_of_elem_eq_true (by rfl)) (by rfl)

/-- C2: a schedule produced by generate never assigns the same
non-sentinel staff id on two consecutive calendar days, whatever order
the days were processed in. -/
theorem claim_C2 :
    ∀ (sch : Scheduler) (orcs : Nat → Oracle) (res : ScheduleResult),
      sch.generate orcs = some res →
      ∀ d1 ∈ res.schedule, ∀ d2 ∈ res.schedule, d2.day = d1.day + 1 →
      ∀ s : String, s ≠ "EMPTY" →
      (d1.assignments.any (fun a => a.staffId == s) &&
       d2.assignments.any (fun a => a.staffId == s)) = false := by
  intro sch orcs res hgen d1 h1 d2 h2 hd s hs
  obtain ⟨⟨i, hi, hres⟩, -⟩ := generate_spec hgen
  subst hres
  exact runSim_adj sch (orcs i) d1 h1 d2 h2 hd s hs

/-- Witness for C2: staff `a` works day 1 and is absent from day 2. -/
theorem claim_C2_witness :
    ((resW.schedule.headI).assignments.any (fun a => a.staffId == "a") &&
     (resW.schedule.getD 1 ⟨0, [], false⟩).assignments.any
       (fun a => a.staffId == "a")) = false :=
  claim_C2 schW (fun _ => orcW) resW rfl
    resW.schedule.headI (List.mem_of_elem_eq_true (by rfl))
    (resW.schedule.getD 1 ⟨0, [], false⟩) (List.mem_of_elem_eq_true (by rfl))
    (by rfl) "a" (by decide)

/-- C3: two staff members computed as roommates by the analyzer (same
non-blank room) are never both assigned on one day, nor on adjacent days,
in any schedule generate produces, in every relaxation mode; stated for
well-formed inputs: distinct staff ids, no staff using the reserved EMPTY
id, and duplicate-free processed day orders (the real day orders are
permutations of the month). -/
theorem claim_C3 :
    ∀ (sch : Scheduler) (orcs : Nat → Oracle) (res : ScheduleResult),
      (sch.staff.map (fun s => s.id)).Nodup →
      (∀ p ∈ sch.staff, p.id ≠ "EMPTY") →
      (∀ i : Nat, (effectiveDayOrder sch (orcs i)).Nodup) →
      sch.generate orcs = some res →
      ∀ p ∈ sch.staff, ∀ q ∈ sch.staff, q.id ∈ sch.roommatesOf p.id →
      ∀ d1 ∈ res.schedule, ∀ d2 ∈ res.schedule,
        (d1.day = d2.day ∨ d2.day = d1.day + 1 ∨ d1.day = d2.day + 1) →
        (d1.assignments.any (fun a => a.staffId == p.id) &&
         d2.assignments.any (fun a => a.staffId == q.id)) = false := by
  intro sch orcs res hnd hne hdays hgen
  obtain ⟨⟨i, hi, hres⟩, -⟩ := generate_spec hgen
  subst hres
  exact runSim_room sch (orcs i) hnd hne (hdays i)

/-- Witness for C3: roommates `ra` and `rb`; `ra` works day 1 and the
roommate rule leaves day 2 to a sentinel. -/
theorem claim_C3_witness :
    ((resW3.schedule.headI).assignments.any (fun a => a.staffId == staffRa.id) &&
     (resW3.schedule.getD 1 ⟨0, [], false⟩).assignments.any
       (fun a => a.staffId == staffRb.id)) = false :=
  claim_C3 schW3 (fun _ => orcW) resW3 (by decide) (by decide)
    (fun i => show (effectiveDayOrder schW3 orcW).Nodup by decide) rfl
    staffRa (List.mem_of_elem_eq_true (by rfl))
    staffRb (List.mem_of_elem_eq_true (by rfl)) (by decide)
    resW3.schedule.headI (List.mem_of_elem_eq_true (by rfl))
    (resW3.schedule.getD 1 ⟨0, [], false⟩) (List.mem_of_elem_eq_true (by rfl))
    (Or.inr (Or.inl (by rfl)))

/-- C4 counterexample: with both tracked specialties allowed on the same
weekday (Saturday), Phase 0 places both specialists into the single slot
type of capacity 1 on day 1 — the recorded count 2 exceeds
maxDailyCount = 1, because the Phase 0 reservation performs no capacity
check. -/
theorem claim_C4_counterexample :
    svW ∈ schC4.services ∧ svW.maxDailyCount = 1 ∧
    (resC4.schedule.headI).assignments.countP (fun a => a.serviceId == svW.id) = 2 :=
  ⟨List.mem_of_elem_eq_true (by rfl), rfl, by rfl⟩

/-- C4 (amended): the per-day per-slot-type assignment count never
exceeds maxDailyCount provided minDailyCount ≤ maxDailyCount for every
slot type and at most one of the two tracked specialties is enabled on
any given weekday (plus well-formedness: duplicate-free staff and service
ids, service shuffles drawn from the service list, duplicate-free day
orders).  Phase 0 has no capacity check of its own, so when both
specialty constraints allow the same weekday it can overfill a slot type,
as the counterexample shows; Phases 1, 2 and 3 respect the bound. -/
theorem claim_C4 :
    ∀ (sch : Scheduler) (orcs : Nat → Oracle) (res : ScheduleResult),
      (sch.staff.map (fun s => s.id)).Nodup →
      (sch.services.map (fun s => s.id)).Nodup →
      (∀ s ∈ sch.services, s.minDailyCount ≤ s.maxDailyCount) →
      (∀ (i : Nat) (d : Int), ∀ sv ∈ (orcs i).shuffle d sch.services, sv ∈ sch.services) →
      (∀ i : Nat, (effectiveDayOrder sch (orcs i)).Nodup) →
      (∀ d : Int, SingleSpecialty sch d) →
      sch.generate orcs = some res →
      ∀ ds ∈ res.schedule, ∀ s ∈ sch.services,
        ds.assignments.countP (fun a => a.serviceId == s.id) ≤ s.maxDailyCount := by
  intro sch orcs res hnd hsvnd hmm hsh hdays hsingle hgen
  obtain ⟨⟨i, hi, hres⟩, -⟩ := generate_spec hgen
  subst hres
  exact runSim_count sch (orcs i) hnd hsvnd hmm (hsh i) hsingle (hdays i)

/-- Witness for C4 at the one-service scheduler without constraints. -/
theorem claim_C4_witness :
    (resW.schedule.headI).assignments.countP (fun a => a.serviceId == svW.id) ≤
      svW.maxDailyCount :=
  claim_C4 schW (fun _ => orcW) resW (by decide) (by decide) (by decide)
    (fun i d sv h => h) (fun i => show (effectiveDayOrder schW orcW).Nodup by decide)
    (fun d h => Bool.noConfusion h.1) rfl
    resW.schedule.headI (List.mem_of_elem_eq_true (by rfl))
    svW (List.mem_of_elem_eq_true (by rfl))

/-- C5: generate retains one of the attempts it ran, and that attempt is
a lexicographic minimum over all attempts: fewest unfilled slots first,
then lowest total quota deviation among ties; in particular the returned
unfilled count is at most that of every individual attempt. -/
theorem claim_C5 :
    ∀ (sch : Scheduler) (orcs : Nat → Oracle) (res : ScheduleResult),
      sch.generate orcs = some res →
      (∃ i, i < sch.config.maxRetries ∧ res = sch.runSimulation (orcs i)) ∧
      (∀ i, i < sch.config.maxRetries →
        res.unfilledSlots ≤ (sch.runSimulation (orcs i)).unfilledSlots ∧
        (res.unfilledSlots = (sch.runSimulation (orcs i)).unfilledSlots →
          totalDeviation sch res ≤ totalDeviation sch (sch.runSimulation (orcs i)))) := by
  intro sch orcs res h
  exact generate_spec h

/-- Witness for C5: the single-attempt run is its own optimum. -/
theorem claim_C5_witness :
    resW.unfilledSlots ≤ (schW.runSimulation orcW).unfilledSlots :=
  ((claim_C5 schW (fun _ => orcW) resW rfl).2 0 (by decide)).1

/-- C6 counterexample: constructing a scheduler with maxRetries = 0
succeeds — the constructor performs no validation and cannot fail — and
the fatal condition surfaces only when generate runs, contradicting the
claim that it is reported at construction time. -/
theorem claim_C6_counterexample :
    schC6.config.maxRetries = 0 ∧ schC6.generate (fun _ => orcW) = none :=
  ⟨rfl, rfl⟩

/-- C6 (amended): the only fatal condition of the engine is a
configuration requesting fewer than one retry attempt, but it is reported
when generate is called, not at construction: construction never fails,
and generate returns a ScheduleResult exactly when maxRetries ≥ 1
(constraint violations become EMPTY sentinels, never exceptions). -/
theorem claim_C6 :
    ∀ (sch : Scheduler) (orcs : Nat → Oracle),
      (sch.generate orcs).isSome = true ↔ 0 < sch.config.maxRetries := by
  intro sch orcs
  constructor
  · intro h
    by_contra hn
    have h0 : sch.config.maxRetries = 0 := by omega
    unfold Scheduler.generate at h
    rw [h0] at h
    simp at h
  · intro hn
    obtain ⟨b, hfold, -, -⟩ := generateFold_spec sch orcs _ hn
    unfold Scheduler.generate
    rw [hfold]
    rfl

/-- C7 counterexample: staff `a` has exactly one more ordinary shift than
the minimum of their tier and is nevertheless blocked by the
horizontal-fairness rule — the code rejects whenever the count exceeds
the minimum at all — so a non-desperate search over an otherwise eligible
pool returns nobody; this refutes the claim that exceeding the minimum by
exactly one is not blocked. -/
theorem claim_C7_counterexample :
    minShiftsByRole schC7 statsC7 3 = 0 ∧
    (statsC7 staffA7.id).service = minShiftsByRole schC7 statsC7 3 + 1 ∧
    horizontalBlocked schC7 statsC7 staffA7 = true ∧
    Scheduler.findBestCandidate schC7 svW 3 [] (fun _ => []) statsC7
      false false false false {} (fun _ => 0) = none :=
  ⟨rfl, rfl, rfl, rfl⟩

/-- C7 (amended): without desperate relaxation, the horizontal-fairness
rule blocks a candidate of role 1, 2 or 3 exactly when their ordinary
count exceeds their own tier's minimum at all — so the post-assignment
spread above the minimum is capped at one, and a candidate already one
above the minimum IS blocked; the non-desperate search never returns a
horizontally blocked candidate. -/
theorem claim_C7 :
    (∀ (sch : Scheduler) (stats : String → StatRec) (p : Staff),
      (p.role = 1 ∨ p.role = 2 ∨ p.role = 3) →
      (horizontalBlocked sch stats p = true ↔
        minShiftsByRole sch stats p.role < (stats p.id).service)) ∧
    (∀ (sch : Scheduler) (sv : Service) (day : Int) (aT : List String)
      (mp : Int → List ShiftAssignment) (stats : String → StatRec)
      (w sa su fr : Bool) (opts : CandidateOptions) (jit : String → Int) (p : Staff),
      opts.desperate = false →
      sch.findBestCandidate sv day aT mp stats w sa su fr opts jit = some p →
      horizontalBlocked sch stats p = false) := by
  constructor
  · intro sch stats p hrole
    unfold horizontalBlocked
    have hcond : (p.role == 1 || p.role == 2 || p.role == 3) = true := by
      rcases hrole with h | h | h <;> rw [h] <;> rfl
    rw [if_pos hcond]
    exact ⟨of_decide_eq_true, fun h => decide_eq_true h⟩
  · intro sch sv day aT mp stats w sa su fr opts jit p hd hf
    obtain ⟨-, hok⟩ := findBestCandidate_some hf
    obtain ⟨-, -, -, -, -, -, hh, -, -⟩ := candidateOk_spec hok
    exact hh hd

/-- Witness for C7 at the concrete two-junior snapshot. -/
theorem claim_C7_witness :
    horizontalBlocked schC7 statsC7 staffA7 = true ↔
      minShiftsByRole schC7 statsC7 staffA7.role < (statsC7 staffA7.id).service :=
  claim_C7.1 schC7 statsC7 staffA7 (Or.inr (Or.inr rfl))

/-- C8: the Phase 3 target-balancing loop always stops, and only for the
documented reasons: after its 50-iteration run it has reached the daily
total target, or no slot type remains below its maximum (no flexible
services), or one further full pass over the flexible services finds no
candidate, or it has consumed the whole 50-iteration protection ceiling. -/
theorem claim_C8 :
    ∀ (ctx : DayCtx) (target : Nat) (st : DayState) (total : Nat),
      target ≤ (phase3Loop ctx target 50 st total).2.1 ∨
      flexibleServices ctx.sch ctx.day (phase3Loop ctx target 50 st total).1 = [] ∨
      (phase3Try ctx
        (sortedFlexible ctx.sch ctx.day (phase3Loop ctx target 50 st total).1)
        (phase3Loop ctx target 50 st total).1).2 = false ∨
      (phase3Loop ctx target 50 st total).2.2 = 50 :=
  fun ctx target st total => phase3Loop_stops ctx target 50 st total

/-- C9: an EMPTY sentinel push appends exactly one record carrying the
reserved EMPTY staff id to the day's assignment list, increments the
unfilled-slot counter by exactly one, and leaves every staff member's
running statistics untouched; a real placement by assignToSlot leaves the
counter untouched and mutates only the assigned candidate's statistics
entry. -/
theorem claim_C9 :
    (∀ (day : Int) (sv : Service) (st : DayState),
      (pushSentinel day sv st).sim.unfilled = st.sim.unfilled + 1 ∧
      (pushSentinel day sv st).sim.stats = st.sim.stats ∧
      (pushSentinel day sv st).sim.asg day = st.sim.asg day ++ [emptyAssignment sv] ∧
      (emptyAssignment sv).staffId = "EMPTY") ∧
    (∀ (day : Int) (w sa su : Bool) (cand : Staff) (sv : Service) (st : DayState),
      (assignToSlot day w sa su cand sv st).sim.unfilled = st.sim.unfilled ∧
      (assignToSlot day w sa su cand sv st).sim.asg day =
        st.sim.asg day ++ [mkAssignment cand sv] ∧
      ∀ i : String, (assignToSlot day w sa su cand sv st).sim.stats i =
        (if i = cand.id then bumpStat w sa su (st.sim.stats cand.id)
         else st.sim.stats i)) := by
  constructor
  · intro day sv st
    refine ⟨rfl, rfl, ?_, rfl⟩
    show (if day = day then st.sim.asg day ++ [emptyAssignment sv] else st.sim.asg day) = _
    rw [if_pos rfl]
  · intro day w sa su cand sv st
    refine ⟨rfl, ?_, fun i => rfl⟩
    show (if day = day then st.sim.asg day ++ [mkAssignment cand sv] else st.sim.asg day) = _
    rw [if_pos rfl]

/-- C10: the returned schedule always has exactly daysInMonth entries, in
ascending day order 1..daysInMonth, and each entry's weekend flag holds
exactly when the actual weekday of that calendar day in the configured
year and month is Sunday or Saturday — independently of the (possibly
randomized) order in which days were processed. -/
theorem claim_C10 :
    ∀ (sch : Scheduler) (orcs : Nat → Oracle) (res : ScheduleResult),
      sch.generate orcs = some res →
      res.schedule.length = sch.daysInMonth ∧
      ∀ (i : Nat) (h : i < res.schedule.length),
        (res.schedule.get ⟨i, h⟩).day = (i : Int) + 1 ∧
        ((res.schedule.get ⟨i, h⟩).isWeekend = true ↔
          (jsDayOfWeek sch.config.year sch.config.month ((i : Int) + 1) = 0 ∨
           jsDayOfWeek sch.config.year sch.config.month ((i : Int) + 1) = 6)) := by
  intro sch orcs res hgen
  obtain ⟨⟨i0, hi0, hres⟩, -⟩ := generate_spec hgen
  subst hres
  constructor
  · show ((List.range sch.daysInMonth).map (fun (i : Nat) =>
      (⟨(i : Int) + 1, (finalSim sch (orcs i0)).asg ((i : Int) + 1),
        sch.isWeekendDay ((i : Int) + 1)⟩ : DaySchedule))).length = sch.daysInMonth
    rw [List.length_map, List.length_range]
  · intro i h
    have hg : (sch.runSimulation (orcs i0)).schedule.get ⟨i, h⟩ =
        (⟨(i : Int) + 1, (finalSim sch (orcs i0)).asg ((i : Int) + 1),
          sch.isWeekendDay ((i : Int) + 1)⟩ : DaySchedule) :=
      get_map_range sch.daysInMonth _ i h
    rw [hg]
    refine ⟨rfl, ?_⟩
    simp only [Scheduler.isWeekendDay, Scheduler.dow, Bool.or_eq_true, beq_iff_eq]

/-- Witness for C10: the February 2025 result has 28 entries. -/
theorem claim_C10_witness :
    resW.schedule.length = schW.daysInMonth :=
  (claim_C10 schW (fun _ => orcW) resW rfl).1

end Hemsire